import Mathlib

set_option maxRecDepth 20000

/-!
# Verification of the komebyu NDGR chat-aggregation client

Shallow embedding of the byte-level decoders and the supervisor state of the
komebyu repository (src/main.js, src/decode_hex.js, src/renderer.js merged
decoder section, src/proto/nicolive.js), together with proofs and refutations
of the specification claims.

Conventions:
* JavaScript `Buffer`s / `Uint8Array`s are modelled as `List Nat`, each element
  a byte in `[0, 256)`.
* JavaScript `BigInt` arithmetic is exact, so varint values are plain `Nat`.
  `Number`s never overflow in the regimes exercised here and are likewise
  modelled as exact naturals / integers.
* A thrown JavaScript exception is modelled as `Option.none`.
* `while` loops over a byte cursor are written as fuel-indexed structural
  recursions; every wrapper passes `buf.length + 1` fuel, which dominates the
  number of iterations because each iteration consumes at least one byte for
  its tag read.
-/

/-! ## Varint primitives (src/decode_hex.js `encodeVarint`, `readVarint`;
the same `readVarint` appears in src/main.js lines 76-94). -/

/-- `encodeVarint` from src/decode_hex.js (fuel-indexed; `encodeVarint` below
passes enough fuel). The source loops `while (v >= 0x80n)` pushing
`(v & 0x7f) | 0x80` and shifting by 7, then pushes the final group. -/
def encodeVarintF : Nat → Nat → List Nat
  | 0, v => [v]
  | fuel + 1, v =>
    if v < 128 then [v]
    else (v % 128 + 128) :: encodeVarintF fuel (v / 128)

/-- `encodeVarint(value)` for a nonnegative value (src/decode_hex.js lines 3-13). -/
def encodeVarint (v : Nat) : List Nat :=
  encodeVarintF v v

/-- `readVarint(buf, offset)` from src/decode_hex.js lines 63-81 (identical in
src/main.js lines 76-94), reading at offset 0 of the given byte list.  Returns
the decoded value and the number of bytes consumed, or `none` when the buffer
ends inside the varint.  JavaScript accumulates `(b & 0x7f) << shift` into a
BigInt; here the groups are accumulated little-endian 7 bits at a time. -/
def readVarint : List Nat → Option (Nat × Nat)
  | [] => none
  | b :: rest =>
    if b % 256 < 128 then some (b % 128, 1)
    else
      match readVarint rest with
      | none => none
      | some (v, len) => some (b % 128 + 128 * v, len + 1)

theorem encodeVarintF_of_le {fuel v : Nat} (h : v ≤ fuel) :
    encodeVarintF fuel v = encodeVarintF v v := by
  induction fuel using Nat.strong_induction_on generalizing v with
  | _ fuel ih =>
    match fuel with
    | 0 =>
      interval_cases v
      rfl
    | fuel + 1 =>
      by_cases hv : v < 128
      · match v with
        | 0 => rfl
        | w + 1 => simp [encodeVarintF, hv]
      · have hv128 : 128 ≤ v := le_of_not_lt hv
        obtain ⟨w, hw⟩ : ∃ w, v = w + 1 := ⟨v - 1, by omega⟩
        subst hw
        have hd : (w + 1) / 128 < w + 1 := Nat.div_lt_self (by omega) (by omega)
        simp only [encodeVarintF, if_neg hv]
        rw [ih fuel (by omega) (by omega), ih w (by omega) (by omega)]

/-- Unfolding equation for `encodeVarint` that hides the fuel. -/
theorem encodeVarint_eq (v : Nat) :
    encodeVarint v = if v < 128 then [v] else (v % 128 + 128) :: encodeVarint (v / 128) := by
  by_cases hv : v < 128
  · rw [if_pos hv]
    match v with
    | 0 => rfl
    | w + 1 => simp [encodeVarint, encodeVarintF, hv]
  · rw [if_neg hv]
    have hv128 : 128 ≤ v := le_of_not_lt hv
    obtain ⟨w, hw⟩ : ∃ w, v = w + 1 := ⟨v - 1, by omega⟩
    subst hw
    have hd : (w + 1) / 128 < w + 1 := Nat.div_lt_self (by omega) (by omega)
    show encodeVarintF (w + 1) (w + 1) = _
    simp only [encodeVarintF, if_neg hv]
    rw [encodeVarintF_of_le (show (w + 1) / 128 ≤ w by omega)]
    rfl

theorem encodeVarint_ne_nil (v : Nat) : encodeVarint v ≠ [] := by
  rw [encodeVarint_eq]
  split <;> simp

/-- Reading a varint is determined by the encoded prefix: whatever follows the
canonical encoding is ignored. -/
theorem readVarint_encode_append (v : Nat) (rest : List Nat) :
    readVarint (encodeVarint v ++ rest) = some (v, (encodeVarint v).length) := by
  induction v using Nat.strong_induction_on generalizing rest with
  | _ v ih =>
    rw [encodeVarint_eq]
    by_cases hv : v < 128
    · have h256 : v % 256 = v := Nat.mod_eq_of_lt (by omega)
      have h128 : v % 128 = v := Nat.mod_eq_of_lt hv
      simp [readVarint, h256, h128, hv]
    · have hv128 : 128 ≤ v := le_of_not_lt hv
      have hb : (v % 128 + 128) % 256 = v % 128 + 128 := by
        have := Nat.mod_lt v (show 0 < 128 by norm_num)
        omega
      have hdiv : v / 128 < v := Nat.div_lt_self (by omega) (by omega)
      simp only [if_neg hv, List.cons_append, readVarint, hb]
      have hnotlt : ¬ (v % 128 + 128 < 128) := by omega
      rw [if_neg hnotlt, ih (v / 128) hdiv]
      have hmod : (v % 128 + 128) % 128 = v % 128 := by omega
      have hval : v % 128 + 128 * (v / 128) = v := by
        have := Nat.mod_add_div v 128
        omega
      simp [hmod, hval]

/-- C10's round trip at offset 0 over exactly the encoded bytes. -/
theorem readVarint_encode (v : Nat) :
    readVarint (encodeVarint v) = some (v, (encodeVarint v).length) := by
  have := readVarint_encode_append v []
  simpa using this

/-- A successful varint read consumes at least one byte and at most the whole
buffer. -/
theorem readVarint_length {l : List Nat} {n h : Nat}
    (hread : readVarint l = some (n, h)) : 1 ≤ h ∧ h ≤ l.length := by
  induction l generalizing n h with
  | nil => simp [readVarint] at hread
  | cons b rest ih =>
    by_cases hb : b % 256 < 128
    · simp [readVarint, hb] at hread
      simp [← hread.2]
    · simp only [readVarint, if_neg hb] at hread
      match hr : readVarint rest with
      | none => rw [hr] at hread; simp at hread
      | some (v, len) =>
        rw [hr] at hread
        simp only [Option.some.injEq, Prod.mk.injEq] at hread
        have := ih hr
        simp only [List.length_cons]
        omega

/-- A successful varint read is stable under appending bytes. -/
theorem readVarint_append {l : List Nat} {n h : Nat} (m : List Nat)
    (hread : readVarint l = some (n, h)) :
    readVarint (l ++ m) = some (n, h) := by
  induction l generalizing n h with
  | nil => simp [readVarint] at hread
  | cons b rest ih =>
    by_cases hb : b % 256 < 128
    · simp [readVarint, hb] at hread ⊢
      exact hread
    · simp only [readVarint, List.cons_append, List.append_eq, if_neg hb] at hread ⊢
      match hr : readVarint rest with
      | none => rw [hr] at hread; simp at hread
      | some (v, len) =>
        rw [hr] at hread
        rw [ih hr]
        simpa using hread

/-- A strict prefix of the bytes of a varint never decodes: every byte before
the terminating one has its continuation bit set. -/
theorem readVarint_take_none {l : List Nat} {n h : Nat}
    (hread : readVarint l = some (n, h)) {j : Nat} (hj : j < h) :
    readVarint (l.take j) = none := by
  induction l generalizing n h j with
  | nil => simp [readVarint] at hread
  | cons b rest ih =>
    match j with
    | 0 => simp [readVarint]
    | j + 1 =>
      by_cases hb : b % 256 < 128
      · simp [readVarint, hb] at hread
        omega
      · simp only [readVarint, if_neg hb] at hread
        simp only [List.take_succ_cons, readVarint, if_neg hb]
        match hr : readVarint rest with
        | none =>
          rw [hr] at hread; simp at hread
        | some (v, len) =>
          rw [hr] at hread
          simp only [Option.some.injEq, Prod.mk.injEq] at hread
          rw [ih hr (by omega)]

/-! ## Chunk assembler (src/main.js `createChunkProcessor`, lines 122-151)

The processor keeps a byte buffer across calls.  On each call it appends the
incoming chunk and then repeatedly strips complete frames: it reads the
leading length varint and takes `msgLen = Number(lengthInfo.value)`; if
`!Number.isFinite(msgLen) || msgLen < 0` the buffer is discarded (lines
135-139) and the loop breaks; otherwise, if the buffer holds
`headerLen + msgLen` bytes it emits the payload slice and drops the frame, and
else it stops and keeps the remaining bytes buffered.

`Number(v)` of a nonnegative BigInt is finite exactly below the IEEE-754
round-to-nearest overflow threshold `2 ^ 1024 - 2 ^ 970` (values at or above
it round to `2 ^ 1024`, i.e. `Infinity`), so the discard guard is reachable: a
147-byte header of 146 continuation bytes and a final `0x04` decodes to
`2 ^ 1024`.  `msgLen < 0` cannot occur for an unsigned varint.  For finite
lengths above `2 ^ 53` the double is a rounded approximation of the exact
value; the two can be told apart only by a buffer of at least `2 ^ 53` bytes,
so the model keeps the exact value there. -/

/-- Whether `Number(v)` of a nonnegative BigInt `v` satisfies
`Number.isFinite`: true exactly below the double overflow threshold
`2 ^ 1024 - 2 ^ 970`. -/
def numberIsFinite (n : Nat) : Bool := n < 2 ^ 1024 - 2 ^ 970

/-- One `feed` call's frame-stripping loop, fuel-indexed.  Returns the emitted
payloads in order and the remaining buffer; a non-finite decoded length
empties the buffer (the source's `buffer = Buffer.alloc(0); break`). -/
def processBufferF : Nat → List Nat → List (List Nat) × List Nat
  | 0, buffer => ([], buffer)
  | fuel + 1, buffer =>
    match readVarint buffer with
    | none => ([], buffer)
    | some (msgLen, headerLen) =>
      if ¬ numberIsFinite msgLen then ([], [])
      else if buffer.length < headerLen + msgLen then ([], buffer)
      else
        let payload := (buffer.drop headerLen).take msgLen
        let res := processBufferF fuel (buffer.drop (headerLen + msgLen))
        (payload :: res.1, res.2)

/-- Frame extraction over a buffer: `buffer.length + 1` fuel always suffices
because every extracted frame removes at least the one-byte-or-longer length
varint. -/
def processBuffer (buffer : List Nat) : List (List Nat) × List Nat :=
  processBufferF (buffer.length + 1) buffer

/-- The chunk processor state after feeding a list of chunks in order, starting
from an empty buffer: the accumulated emitted payloads and the final buffer.
Models repeated calls of the closure returned by `createChunkProcessor`. -/
def runChunks (chunks : List (List Nat)) : List (List Nat) × List Nat :=
  chunks.foldl
    (fun acc c =>
      let res := processBuffer (acc.2 ++ c)
      (acc.1 ++ res.1, res.2))
    ([], [])

/-- A complete length-prefixed frame: some (not necessarily canonical) varint
header decoding to `n`, followed by exactly `n` payload bytes. -/
def IsFrame (f p : List Nat) : Prop :=
  ∃ h, readVarint f = some (p.length, h) ∧ f.drop h = p ∧ f.length = h + p.length

/-- The canonical frame for a payload, as built by src/decode_hex.js
`buildSampleB` (`Buffer.concat([encodeVarint(payload.length), payload])`). -/
def mkFrame (p : List Nat) : List Nat :=
  encodeVarint p.length ++ p

/-- A buffer the loop retains untouched: its leading varint is incomplete, or
it advertises a finite-length frame extending past the end of the buffer. -/
def StuckBuf (t : List Nat) : Prop :=
  readVarint t = none ∨
    ∃ n h, readVarint t = some (n, h) ∧ numberIsFinite n = true ∧ t.length < h + n

/-- A partial frame exactly as the claim puts it: a strict prefix of some
complete frame (the empty buffer included). -/
def IsPartialFrame (t : List Nat) : Prop :=
  ∃ f p ext, IsFrame f p ∧ f = t ++ ext ∧ ext ≠ []

/-- A strict prefix of a complete frame whose advertised length survives the
`Number.isFinite` guard. -/
def IsBoundedPartialFrame (t : List Nat) : Prop :=
  ∃ f p ext, IsFrame f p ∧ numberIsFinite p.length = true ∧ f = t ++ ext ∧ ext ≠ []

theorem isFrame_mkFrame (p : List Nat) : IsFrame (mkFrame p) p := by
  refine ⟨(encodeVarint p.length).length, ?_, ?_, ?_⟩
  · exact readVarint_encode_append p.length p
  · simp [mkFrame]
  · simp [mkFrame, Nat.add_comm]

/-- Fuel irrelevance for the frame-stripping loop: any fuel beyond the buffer
length gives the canonical result. -/
theorem processBufferF_of_lt {fuel : Nat} {buffer : List Nat}
    (hfuel : buffer.length < fuel) :
    processBufferF fuel buffer = processBuffer buffer := by
  induction fuel using Nat.strong_induction_on generalizing buffer with
  | _ fuel ih =>
    obtain ⟨f, rfl⟩ : ∃ f, fuel = f + 1 := ⟨fuel - 1, by omega⟩
    unfold processBuffer
    simp only [processBufferF]
    match hr : readVarint buffer with
    | none => rfl
    | some (msgLen, headerLen) =>
      simp only
      by_cases hfin : ¬ numberIsFinite msgLen
      · simp only [if_pos hfin]
      · simp only [if_neg hfin]
        split
        · rfl
        · next hlen =>
          have h1 : 1 ≤ headerLen := (readVarint_length hr).1
          have hdrop : (buffer.drop (headerLen + msgLen)).length
              = buffer.length - (headerLen + msgLen) := by simp
          have hlt : (buffer.drop (headerLen + msgLen)).length < f := by omega
          have hlt' : (buffer.drop (headerLen + msgLen)).length < buffer.length := by omega
          rw [ih f (by omega) hlt, ih buffer.length (by omega) (by omega)]

/-- Clean one-step unfolding of `processBuffer`, with no fuel in sight. -/
theorem processBuffer_eq (buffer : List Nat) :
    processBuffer buffer =
      match readVarint buffer with
      | none => ([], buffer)
      | some (msgLen, headerLen) =>
        if ¬ numberIsFinite msgLen then ([], [])
        else if buffer.length < headerLen + msgLen then ([], buffer)
        else
          let res := processBuffer (buffer.drop (headerLen + msgLen))
          ((buffer.drop headerLen).take msgLen :: res.1, res.2) := by
  conv_lhs => rw [processBuffer]
  simp only [processBufferF]
  match hr : readVarint buffer with
  | none => rfl
  | some (msgLen, headerLen) =>
    simp only
    by_cases hfin : ¬ numberIsFinite msgLen
    · simp only [if_pos hfin]
    · simp only [if_neg hfin]
      split
      · rfl
      · next hlen =>
        have h1 : 1 ≤ headerLen := (readVarint_length hr).1
        have : (buffer.drop (headerLen + msgLen)).length < buffer.length := by
          simp only [List.length_drop]
          omega
        rw [processBufferF_of_lt (by omega)]

/-- A stuck buffer passes through the loop untouched. -/
theorem processBuffer_stuck {t : List Nat} (hs : StuckBuf t) :
    processBuffer t = ([], t) := by
  rw [processBuffer_eq]
  rcases hs with hnone | ⟨n, h, hread, hfin, hlen⟩
  · rw [hnone]
  · rw [hread]
    simp only
    rw [if_neg (by simp [hfin]), if_pos hlen]

/-- Truncating a buffer anywhere at or past the end of its leading varint
preserves the varint read. -/
theorem readVarint_take_some {l : List Nat} {n h j : Nat}
    (hread : readVarint l = some (n, h)) (hj : h ≤ j) :
    readVarint (l.take j) = some (n, h) := by
  induction l generalizing n h j with
  | nil => simp [readVarint] at hread
  | cons b rest ih =>
    have h1 : 1 ≤ h := (readVarint_length hread).1
    match j with
    | 0 => omega
    | j + 1 =>
      by_cases hb : b % 256 < 128
      · simp only [readVarint, if_pos hb] at hread
        simpa [readVarint, hb] using hread
      · simp only [readVarint, if_neg hb] at hread
        simp only [List.take_succ_cons, readVarint, if_neg hb]
        match hr : readVarint rest with
        | none => rw [hr] at hread; simp at hread
        | some (v, len) =>
          rw [hr] at hread
          simp only [Option.some.injEq, Prod.mk.injEq] at hread
          rw [ih hr (by omega)]
          simpa using hread

/-- A strict prefix of a complete frame with a finite advertised length is
stuck. -/
theorem isBoundedPartialFrame_stuck {t : List Nat}
    (hp : IsBoundedPartialFrame t) : StuckBuf t := by
  obtain ⟨f, p, ext, ⟨h, hread, hdrop, hlen⟩, hfin, hpre, hext⟩ := hp
  have htlen : t.length < f.length := by
    subst hpre
    have : 1 ≤ ext.length := by
      cases ext with
      | nil => simp at hext
      | cons a l => simp
    simp only [List.length_append]
    omega
  by_cases hth : t.length < h
  · left
    have : t = f.take t.length := by
      subst hpre
      rw [List.take_append_of_le_length le_rfl]
      simp
    rw [this]
    exact readVarint_take_none hread hth
  · right
    refine ⟨p.length, h, ?_, hfin, by omega⟩
    have hft : f.take t.length = t := by
      subst hpre
      rw [List.take_append_of_le_length le_rfl]
      simp
    have := readVarint_take_some hread (show h ≤ t.length by omega)
    rw [hft] at this
    exact this

/-- Processing any prefix of a well-formed stream (finite-length frames plus a
bounded partial tail) strips exactly the frames fully contained in the prefix
and strands a stuck remainder aligned with the rest of the stream. -/
theorem processBuffer_prefix (B : List Nat) :
    ∀ (frames payloads : List (List Nat)) (t ext : List Nat),
      List.Forall₂ IsFrame frames payloads →
      (∀ p ∈ payloads, numberIsFinite p.length = true) →
      IsBoundedPartialFrame t →
      B ++ ext = frames.flatten ++ t →
      ∃ (framesA payloadsA framesB payloadsB : List (List Nat)) (r : List Nat),
        frames = framesA ++ framesB ∧ payloads = payloadsA ++ payloadsB ∧
        List.Forall₂ IsFrame framesB payloadsB ∧
        processBuffer B = (payloadsA, r) ∧ StuckBuf r ∧
        r ++ ext = framesB.flatten ++ t := by
  suffices H : ∀ (N : Nat) (B : List Nat), B.length ≤ N →
      ∀ (frames payloads : List (List Nat)) (t ext : List Nat),
        List.Forall₂ IsFrame frames payloads →
        (∀ p ∈ payloads, numberIsFinite p.length = true) →
        IsBoundedPartialFrame t →
        B ++ ext = frames.flatten ++ t →
        ∃ (framesA payloadsA framesB payloadsB : List (List Nat)) (r : List Nat),
          frames = framesA ++ framesB ∧ payloads = payloadsA ++ payloadsB ∧
          List.Forall₂ IsFrame framesB payloadsB ∧
          processBuffer B = (payloadsA, r) ∧ StuckBuf r ∧
          r ++ ext = framesB.flatten ++ t from
    fun frames payloads t ext => H B.length B le_rfl frames payloads t ext
  intro N
  induction N using Nat.strong_induction_on with
  | _ N ih =>
    intro B hBN frames payloads t ext hf hfin htail heq
    cases hf with
    | nil =>
      simp only [List.flatten_nil, List.nil_append] at heq
      obtain ⟨f, p, e, hfp, hfinp, hfe, hne⟩ := htail
      have hstuck : StuckBuf B :=
        isBoundedPartialFrame_stuck
          ⟨f, p, ext ++ e, hfp, hfinp, by rw [hfe, ← heq, List.append_assoc],
            by simp [hne]⟩
      exact ⟨[], [], [], [], B, by simp, by simp, List.Forall₂.nil,
        processBuffer_stuck hstuck, hstuck, by simpa using heq⟩
    | cons hfp hrest =>
      rename_i f p frames' payloads'
      have heq' : B ++ ext = f ++ (frames'.flatten ++ t) := by
        simpa using heq
      obtain ⟨h, hread, hdropf, hlenf⟩ := hfp
      have hfinp : numberIsFinite p.length = true := hfin p (by simp)
      have hfin' : ∀ q ∈ payloads', numberIsFinite q.length = true :=
        fun q hq => hfin q (by simp [hq])
      have h1 : 1 ≤ h := (readVarint_length hread).1
      have hhle : h ≤ f.length := (readVarint_length hread).2
      by_cases hBf : B.length < f.length
      · have hfB : f = B ++ f.drop B.length := by
          have hBt : B.take B.length = B := by simp
          calc f = f.take B.length ++ f.drop B.length :=
                (List.take_append_drop _ _).symm
            _ = B ++ f.drop B.length := by
                congr 1
                calc f.take B.length
                    = (f ++ (frames'.flatten ++ t)).take B.length :=
                      (List.take_append_of_le_length (by omega)).symm
                  _ = (B ++ ext).take B.length := by rw [heq']
                  _ = B.take B.length := List.take_append_of_le_length le_rfl
                  _ = B := hBt
        have hdne : f.drop B.length ≠ [] := by
          intro hcon
          have := congrArg List.length hcon
          simp only [List.length_drop, List.length_nil] at this
          omega
        have hstuck : StuckBuf B :=
          isBoundedPartialFrame_stuck
            ⟨f, p, f.drop B.length, ⟨h, hread, hdropf, hlenf⟩, hfinp, hfB, hdne⟩
        exact ⟨[], [], f :: frames', p :: payloads', B, by simp, by simp,
          List.Forall₂.cons ⟨h, hread, hdropf, hlenf⟩ hrest,
          processBuffer_stuck hstuck, hstuck, by simpa using heq⟩
      · have hBfge : f.length ≤ B.length := le_of_not_lt hBf
        have hBtake : B.take f.length = f := by
          calc B.take f.length = (B ++ ext).take f.length :=
                (List.take_append_of_le_length hBfge).symm
            _ = (f ++ (frames'.flatten ++ t)).take f.length := by rw [heq']
            _ = f := List.take_left _ _
        have hBsplit : B = f ++ B.drop f.length := by
          conv_lhs => rw [← List.take_append_drop f.length B]
          rw [hBtake]
        have hBrest : B.drop f.length ++ ext = frames'.flatten ++ t := by
          calc B.drop f.length ++ ext = (B ++ ext).drop f.length :=
                (List.drop_append_of_le_length hBfge).symm
            _ = (f ++ (frames'.flatten ++ t)).drop f.length := by rw [heq']
            _ = frames'.flatten ++ t := List.drop_left _ _
        have hreadB : readVarint B = some (p.length, h) := by
          rw [hBsplit]
          exact readVarint_append _ hread
        have hcomp : ¬ B.length < h + p.length := by omega
        have hslice : (B.drop h).take p.length = p := by
          conv_lhs => rw [hBsplit]
          rw [List.drop_append_of_le_length hhle, hdropf]
          exact List.take_left _ _
        have hdropB : B.drop (h + p.length) = B.drop f.length := by rw [← hlenf]
        have hN1 : 1 ≤ N := by omega
        obtain ⟨fA, pA, fB, pB, r, hsF, hsP, hforB, hproc, hstr, hrext⟩ :=
          ih (N - 1) (by omega) (B.drop f.length)
            (by simp only [List.length_drop]; omega)
            frames' payloads' t ext hrest hfin' htail hBrest
        refine ⟨f :: fA, p :: pA, fB, pB, r, by simp [hsF], by simp [hsP],
          hforB, ?_, hstr, hrext⟩
        rw [processBuffer_eq, hreadB]
        simp only
        rw [if_neg (by simp [hfinp]), if_neg hcomp, hslice, hdropB, hproc]

/-- Folding chunks through the processor, starting from a stuck buffer aligned
with the remaining stream, emits exactly the remaining payloads and ends on
the tail. -/
theorem runChunks_aligned (chunks : List (List Nat)) :
    ∀ (frames payloads : List (List Nat)) (t buf : List Nat)
      (acc : List (List Nat)),
      List.Forall₂ IsFrame frames payloads →
      (∀ p ∈ payloads, numberIsFinite p.length = true) →
      IsBoundedPartialFrame t →
      StuckBuf buf →
      buf ++ chunks.flatten = frames.flatten ++ t →
      chunks.foldl
        (fun acc c =>
          let res := processBuffer (acc.2 ++ c)
          (acc.1 ++ res.1, res.2))
        (acc, buf)
      = (acc ++ payloads, t) := by
  induction chunks with
  | nil =>
    intro frames payloads t buf acc hf hfin htail hstuck heq
    cases hf with
    | nil =>
      simp only [List.flatten_nil, List.append_nil, List.nil_append] at heq
      simp [heq]
    | cons hfp hrest =>
      rename_i f p frames' payloads'
      exfalso
      obtain ⟨h, hread, hdropf, hlenf⟩ := hfp
      have heq' : buf = f ++ (frames'.flatten ++ t) := by simpa using heq
      have hreadB : readVarint buf = some (p.length, h) := by
        rw [heq']
        exact readVarint_append _ hread
      have hfinp : numberIsFinite p.length = true := hfin p (by simp)
      have hlen := readVarint_length hread
      have hbuflen : f.length ≤ buf.length := by
        rw [heq']
        simp
      rcases hstuck with hnone | ⟨n, h', hsome, _, hlt⟩
      · rw [hreadB] at hnone
        exact Option.noConfusion hnone
      · rw [hreadB] at hsome
        simp only [Option.some.injEq, Prod.mk.injEq] at hsome
        omega
  | cons c cs ih =>
    intro frames payloads t buf acc hf hfin htail hstuck heq
    simp only [List.foldl_cons]
    obtain ⟨fA, pA, fB, pB, r, hsF, hsP, hforB, hproc, hstr, hrext⟩ :=
      processBuffer_prefix (buf ++ c) frames payloads t cs.flatten hf hfin htail
        (by simpa [List.append_assoc] using heq)
    have hfinB : ∀ q ∈ pB, numberIsFinite q.length = true :=
      fun q hq => hfin q (by simp [hsP, hq])
    simp only [hproc]
    rw [ih fB pB t r (acc ++ pA) hforB hfinB htail hstr hrext, hsP,
      List.append_assoc]

/-- C1 counterexample: a single chunk of 146 continuation bytes and a final
`0x04` is a strict prefix of a complete frame (its length varint decodes to
`2 ^ 1024`, promising that many payload bytes), so the claim's hypotheses hold
with zero complete frames and this chunk as the partial tail — yet
`Number(2 ^ 1024)` is `Infinity`, the `Number.isFinite` guard fires, and the
assembler *discards* the buffer instead of retaining the tail. -/
theorem claim_C1_counterexample :
    List.Forall₂ IsFrame ([] : List (List Nat)) [] ∧
    IsPartialFrame (List.replicate 146 128 ++ [4]) ∧
    [List.replicate 146 128 ++ [4]].flatten
      = ([] : List (List Nat)).flatten ++ (List.replicate 146 128 ++ [4]) ∧
    runChunks [List.replicate 146 128 ++ [4]] = ([], []) ∧
    runChunks [List.replicate 146 128 ++ [4]]
      ≠ ([], List.replicate 146 128 ++ [4]) := by
  refine ⟨List.Forall₂.nil, ?_, by simp, by decide, by decide⟩
  refine ⟨(List.replicate 146 128 ++ [4]) ++ List.replicate (2 ^ 1024) 0,
    List.replicate (2 ^ 1024) 0, List.replicate (2 ^ 1024) 0,
    ⟨147, ?_, ?_, ?_⟩, rfl, ?_⟩
  · rw [List.length_replicate]
    exact readVarint_append _
      (by decide : readVarint (List.replicate 146 128 ++ [4]) = some (2 ^ 1024, 147))
  · rw [show (147 : Nat) = (List.replicate 146 128 ++ [4]).length from by decide,
      List.drop_left]
  · simp only [List.length_append, List.length_replicate, List.length_cons,
      List.length_nil]
  · intro hcon
    have hlen := congrArg List.length hcon
    simp only [List.length_replicate, List.length_nil] at hlen
    have : (0 : Nat) < 2 ^ 1024 := by positivity
    omega

/-- C1 (amended): for every sequence of byte chunks whose concatenation equals
`k` complete length-prefixed frames followed by a partial tail `t`, feeding
the chunks in order to the chunk assembler emits exactly the `k` frame
payloads in order across the calls and leaves `t` in the internal buffer —
provided every frame's payload length, and the length advertised by the
tail's underlying frame, pass the `Number.isFinite` guard (value below
`2 ^ 1024 - 2 ^ 970`); a header whose decoded length reaches that threshold
makes the assembler discard its buffer instead. -/
theorem claim_C1_chunk_assembler
    {chunks frames payloads : List (List Nat)} {t : List Nat}
    (hframes : List.Forall₂ IsFrame frames payloads)
    (hfinite : ∀ p ∈ payloads, numberIsFinite p.length = true)
    (htail : IsBoundedPartialFrame t)
    (hconcat : chunks.flatten = frames.flatten ++ t) :
    runChunks chunks = (payloads, t) := by
  unfold runChunks
  have := runChunks_aligned chunks frames payloads t [] [] hframes hfinite htail
    (Or.inl rfl) (by simpa using hconcat)
  simpa using this

/-- C1 witness: two frames (payloads `[97]` and `[98, 99]`) plus the partial
tail `[2, 98]`, split across three chunk boundaries that straddle the frames. -/
theorem claim_C1_chunk_assembler_witness :
    runChunks [[1], [97, 2], [98, 99, 2, 98]] = ([[97], [98, 99]], [2, 98]) :=
  @claim_C1_chunk_assembler [[1], [97, 2], [98, 99, 2, 98]]
    [[1, 97], [2, 98, 99]] [[97], [98, 99]] [2, 98]
    (List.Forall₂.cons ⟨1, by decide, by decide, by decide⟩
      (List.Forall₂.cons ⟨1, by decide, by decide, by decide⟩ List.Forall₂.nil))
    (by decide)
    ⟨[2, 98, 99], [98, 99], [99], ⟨1, by decide, by decide, by decide⟩,
      by decide, by decide, by decide⟩
    (by decide)

/-- C7 counterexample: the claim says a leading length varint above the 16 MiB
bound makes the assembler discard the buffer and raise a recoverable decode
error.  The bytes `[0x80, 0x80, 0x80, 0x10]` decode to length `2 ^ 25`
(32 MiB): the assembler emits nothing and keeps the buffer *unchanged*
(waiting for more data), contradicting the claimed discard. -/
theorem claim_C7_counterexample :
    processBuffer [128, 128, 128, 16] = ([], [128, 128, 128, 16]) := by
  decide

/-- C7 (amended): `createChunkProcessor` has no 16 MiB (or other configurable)
frame-length bound.  A leading length varint decoding to any value that
`Number.isFinite` accepts — in particular any value exceeding 16 MiB — leaves
the buffer intact with no frame emitted and no error raised when the payload
has not fully arrived; the only discard is the `Number.isFinite` guard, which
fires exactly when the decoded length reaches the double overflow threshold
`2 ^ 1024 - 2 ^ 970` (reachable with a 147-byte header) and then empties the
buffer while processing of later chunks continues. -/
theorem claim_C7_no_16MiB_bound :
    (∀ (n : Nat) (p : List Nat), 16 * 1024 * 1024 < n → numberIsFinite n = true →
      p.length < n →
      processBuffer (encodeVarint n ++ p) = ([], encodeVarint n ++ p)) ∧
    (∀ (n : Nat) (p : List Nat), numberIsFinite n = false →
      processBuffer (encodeVarint n ++ p) = ([], [])) := by
  constructor
  · intro n p _ hfin hp
    apply processBuffer_stuck
    right
    refine ⟨n, (encodeVarint n).length, readVarint_encode_append n p, hfin, ?_⟩
    simp only [List.length_append]
    omega
  · intro n p hfin
    rw [processBuffer_eq, readVarint_encode_append n p]
    simp only
    rw [if_pos (by simp [hfin])]

/-- C7 amended-claim witness: an incomplete 32 MiB frame header is retained,
and a header advertising `2 ^ 1024` bytes is discarded. -/
theorem claim_C7_no_16MiB_bound_witness :
    (16 * 1024 * 1024 < 33554432 ∧ numberIsFinite 33554432 = true ∧
      ([] : List Nat).length < 33554432 ∧
      processBuffer (encodeVarint 33554432 ++ []) = ([], encodeVarint 33554432 ++ [])) ∧
    (numberIsFinite (2 ^ 1024) = false ∧
      processBuffer (encodeVarint (2 ^ 1024) ++ []) = ([], [])) :=
  ⟨⟨by norm_num, by decide, by norm_num,
      claim_C7_no_16MiB_bound.1 33554432 [] (by norm_num) (by decide) (by norm_num)⟩,
    ⟨by decide, claim_C7_no_16MiB_bound.2 (2 ^ 1024) [] (by decide)⟩⟩

/-- C10: for every value representable in 64 bits, reading a varint at offset
0 of the buffer produced by `encodeVarint` returns the value together with a
consumed length equal to the encoded buffer's size. -/
theorem claim_C10_varint_roundtrip (v : Nat) (_hv : v < 2 ^ 64) :
    readVarint (encodeVarint v) = some (v, (encodeVarint v).length) :=
  readVarint_encode v

/-- C10 witness at `v = 300`. -/
theorem claim_C10_varint_roundtrip_witness :
    300 < 2 ^ 64 ∧ readVarint (encodeVarint 300) = some (300, (encodeVarint 300).length) :=
  ⟨by norm_num, claim_C10_varint_roundtrip 300 (by norm_num)⟩

/-! ## Cursor normalization (src/main.js `normalizeAtSeconds`, lines 96-120)

The received `at` value is `null`, the literal string `"now"`, something
`BigInt` accepts (a numeric value, modelled as an exact `Int`), or a
non-numeric string (for which `BigInt` throws and the source returns
`String(at)`).  `seconds.toString()` is BigInt's exact decimal rendering,
modelled by `jsIntToString` below. -/

/-- Little-endian decimal digits, fuel-indexed (`decDigits` passes enough). -/
def decDigitsF : Nat → Nat → List Nat
  | 0, n => [n]
  | fuel + 1, n =>
    if n < 10 then [n]
    else n % 10 :: decDigitsF fuel (n / 10)

/-- Little-endian decimal digits of a natural number. -/
def decDigits (n : Nat) : List Nat :=
  decDigitsF n n

/-- The numeric value of a little-endian decimal digit list. -/
def decValue : List Nat → Nat
  | [] => 0
  | d :: rest => d + 10 * decValue rest

/-- Big-endian digit characters of a digit list. -/
def digitsToChars (l : List Nat) : List Char :=
  l.reverse.map (fun d => Char.ofNat (48 + d))

/-- The exact decimal string `BigInt.prototype.toString` produces. -/
def jsIntToString (n : Int) : String :=
  if n < 0 then String.mk ('-' :: digitsToChars (decDigits n.natAbs))
  else String.mk (digitsToChars (decDigits n.natAbs))

/-- Decimal parsing, inverse to `jsIntToString` (used only to state that the
emitted cursor string is lossless). -/
def parseDecInt (s : String) : Int :=
  match s.data with
  | [] => 0
  | c :: rest =>
    if c = '-' then -(decValue ((rest.map (fun x => x.toNat - 48)).reverse) : Int)
    else (decValue (((c :: rest).map (fun x => x.toNat - 48)).reverse) : Int)

/-- The input to cursor normalization (src/main.js line 96). -/
inductive AtValue where
  | now : AtValue
  | num : Int → AtValue
  | nonNumeric : String → AtValue
deriving DecidableEq

/-- `normalizeAtSeconds(at)` from src/main.js lines 96-120: `null` passes
through, the literal `"now"` is returned unchanged, a numeric value at or above
`10^12` is taken as milliseconds and divided by 1000, a smaller numeric value
is already seconds, and a non-numeric string comes back via `String(at)`.
Logging is omitted. -/
def normalizeAtSeconds : Option AtValue → Option String
  | none => none
  | some .now => some "now"
  | some (.num n) =>
    let isMillis := (1000000000000 : Int) ≤ n
    let seconds := if isMillis then n / 1000 else n
    some (jsIntToString seconds)
  | some (.nonNumeric s) => some s

theorem decDigitsF_of_le {fuel n : Nat} (h : n ≤ fuel) :
    decDigitsF fuel n = decDigitsF n n := by
  induction fuel using Nat.strong_induction_on generalizing n with
  | _ fuel ih =>
    match fuel with
    | 0 =>
      interval_cases n
      rfl
    | fuel + 1 =>
      by_cases hn : n < 10
      · match n with
        | 0 => rfl
        | w + 1 => simp [decDigitsF, hn]
      · obtain ⟨w, hw⟩ : ∃ w, n = w + 1 := ⟨n - 1, by omega⟩
        subst hw
        have hd : (w + 1) / 10 < w + 1 := Nat.div_lt_self (by omega) (by omega)
        simp only [decDigitsF, if_neg hn]
        rw [ih fuel (by omega) (by omega), ih w (by omega) (by omega)]

theorem decDigits_eq (n : Nat) :
    decDigits n = if n < 10 then [n] else n % 10 :: decDigits (n / 10) := by
  by_cases hn : n < 10
  · rw [if_pos hn]
    match n with
    | 0 => rfl
    | w + 1 => simp [decDigits, decDigitsF, hn]
  · rw [if_neg hn]
    obtain ⟨w, hw⟩ : ∃ w, n = w + 1 := ⟨n - 1, by omega⟩
    subst hw
    have hd : (w + 1) / 10 < w + 1 := Nat.div_lt_self (by omega) (by omega)
    show decDigitsF (w + 1) (w + 1) = _
    simp only [decDigitsF, if_neg hn]
    rw [decDigitsF_of_le (show (w + 1) / 10 ≤ w by omega)]
    rfl

theorem decValue_decDigits (n : Nat) : decValue (decDigits n) = n := by
  induction n using Nat.strong_induction_on with
  | _ n ih =>
    rw [decDigits_eq]
    by_cases hn : n < 10
    · simp [decValue, hn]
    · have hd : n / 10 < n := Nat.div_lt_self (by omega) (by omega)
      simp only [if_neg hn, decValue, ih (n / 10) hd]
      omega

theorem decDigits_lt (n : Nat) : ∀ d ∈ decDigits n, d < 10 := by
  induction n using Nat.strong_induction_on with
  | _ n ih =>
    rw [decDigits_eq]
    by_cases hn : n < 10
    · simp [hn]
    · have hd : n / 10 < n := Nat.div_lt_self (by omega) (by omega)
      simp only [if_neg hn, List.mem_cons]
      rintro d (rfl | hmem)
      · exact Nat.mod_lt _ (by omega)
      · exact ih (n / 10) hd d hmem

theorem char_digit_roundtrip {d : Nat} (hd : d < 10) :
    (Char.ofNat (48 + d)).toNat - 48 = d := by
  interval_cases d <;> decide

theorem char_digit_ne_minus {d : Nat} (hd : d < 10) :
    Char.ofNat (48 + d) ≠ '-' := by
  interval_cases d <;> decide

/-- Parsing back the digit characters of a digit list recovers its value. -/
theorem parse_digitsToChars {l : List Nat} (hl : ∀ d ∈ l, d < 10) :
    ((digitsToChars l).map (fun x => x.toNat - 48)).reverse = l := by
  unfold digitsToChars
  rw [List.map_map, List.map_reverse, List.reverse_reverse]
  conv_rhs => rw [← List.map_id l]
  apply List.map_congr_left
  intro d hd
  simpa using char_digit_roundtrip (hl d hd)

/-- The decimal rendering is lossless: `parseDecInt` recovers the exact
integer from `jsIntToString`. -/
theorem parseDecInt_jsIntToString (n : Int) : parseDecInt (jsIntToString n) = n := by
  have hnonempty : ∀ m : Nat, ∃ c cs, digitsToChars (decDigits m) = c :: cs ∧
      ∃ d, d < 10 ∧ c = Char.ofNat (48 + d) := by
    intro m
    unfold digitsToChars
    match hl : (decDigits m).reverse with
    | [] =>
      exfalso
      have : decDigits m = [] := by simpa using congrArg List.reverse hl
      rw [decDigits_eq] at this
      revert this
      split <;> simp
    | d :: ds =>
      refine ⟨Char.ofNat (48 + d), ds.map (fun x => Char.ofNat (48 + x)), by simp, d, ?_, rfl⟩
      have hmem : d ∈ decDigits m := by
          have : d ∈ (decDigits m).reverse := by simp [hl]
          simpa using this
      exact decDigits_lt m d hmem
  obtain ⟨c, cs, hcc, d, hd, hc⟩ := hnonempty n.natAbs
  have hparse := parse_digitsToChars (decDigits_lt n.natAbs)
  by_cases hneg : n < 0
  · unfold jsIntToString
    rw [if_pos hneg]
    unfold parseDecInt
    simp only [hcc, if_true, eq_self_iff_true]
    rw [← hcc, hparse, decValue_decDigits]
    omega
  · unfold jsIntToString
    rw [if_neg hneg]
    unfold parseDecInt
    simp only [hcc]
    rw [if_neg (by rw [hc]; exact char_digit_ne_minus hd)]
    rw [← hcc, hparse, decValue_decDigits]
    omega

/-- C4: cursor normalization returns the literal `"now"` unchanged; a numeric
value ≥ 10^12 is treated as milliseconds and integer-divided by 1000; a
smaller numeric value is already seconds and passes through numerically
unchanged; and the emitted decimal string is lossless — the exact
(arbitrary-precision) seconds value is recoverable from it, in particular for
magnitudes beyond `2^53 - 1`. -/
theorem claim_C4_cursor_normalization :
    normalizeAtSeconds (some .now) = some "now" ∧
    (∀ n : Int, (1000000000000 : Int) ≤ n →
      normalizeAtSeconds (some (.num n)) = some (jsIntToString (n / 1000))) ∧
    (∀ n : Int, n < (1000000000000 : Int) →
      normalizeAtSeconds (some (.num n)) = some (jsIntToString n)) ∧
    (∀ n : Int, (2 ^ 53 - 1 : Int) < |n| →
      ∃ s, normalizeAtSeconds (some (.num n)) = some s ∧
        parseDecInt s = (if (1000000000000 : Int) ≤ n then n / 1000 else n)) := by
  refine ⟨rfl, ?_, ?_, ?_⟩
  · intro n hn
    simp [normalizeAtSeconds, hn]
  · intro n hn
    simp [normalizeAtSeconds, not_le.2 hn]
  · intro n _
    by_cases hn : (1000000000000 : Int) ≤ n
    · exact ⟨jsIntToString (n / 1000), by simp [normalizeAtSeconds, hn],
        by rw [if_pos hn]; exact parseDecInt_jsIntToString _⟩
    · exact ⟨jsIntToString n, by simp [normalizeAtSeconds, hn],
        by rw [if_neg hn]; exact parseDecInt_jsIntToString _⟩

/-- C4 witness: a millisecond timestamp above 10^12 is divided by 1000; the
small value 42 passes through; and a value of magnitude beyond `2^53 - 1` is
recovered exactly from the emitted string. -/
theorem claim_C4_cursor_normalization_witness :
    normalizeAtSeconds (some .now) = some "now" ∧
    ((1000000000000 : Int) ≤ 1765874431000 ∧
      normalizeAtSeconds (some (.num 1765874431000)) = some (jsIntToString (1765874431000 / 1000))) ∧
    ((42 : Int) < 1000000000000 ∧
      normalizeAtSeconds (some (.num 42)) = some (jsIntToString 42)) ∧
    ((2 ^ 53 - 1 : Int) < |(-9007199254740993 : Int)| ∧
      ∃ s, normalizeAtSeconds (some (.num (-9007199254740993))) = some s ∧
        parseDecInt s =
          (if (1000000000000 : Int) ≤ -9007199254740993 then -9007199254740993 / 1000
            else -9007199254740993)) :=
  ⟨claim_C4_cursor_normalization.1,
    ⟨by norm_num, claim_C4_cursor_normalization.2.1 1765874431000 (by norm_num)⟩,
    ⟨by norm_num, claim_C4_cursor_normalization.2.2.1 42 (by norm_num)⟩,
    ⟨by norm_num, claim_C4_cursor_normalization.2.2.2 (-9007199254740993) (by norm_num)⟩⟩

/-! ## Segment runner registry (src/main.js `startSegmentStream`, lines
413-528, and `cleanupSegments`/`cleanup`, lines 350-379)

`segmentConnections` is a map keyed by the fully-qualified target URL computed
by `ensureCursorOrAtParam` (cursor/at query parameters included).
`startSegmentStream` returns immediately when the connection has been aborted
or when the computed target URL is already a key; otherwise it inserts the key
before starting the runner.  A runner's `finally` block deletes its own key
when it terminates, and `cleanup` aborts the connection before clearing the
registry, so no new runner can start during teardown. -/

/-- The supervisor state relevant to segment runners: whether the connection's
abort controller has fired, and the keys of `segmentConnections` (insertion
order, newest first). -/
structure SegState where
  aborted : Bool
  keys : List String
deriving DecidableEq

/-- `startSegmentStream` (src/main.js lines 413-426) at the registry level,
taking the already-computed fully-qualified target URL: no-op when aborted or
when the key is present, otherwise the key is inserted. -/
def startSegmentStream (s : SegState) (targetUri : String) : SegState :=
  if s.aborted then s
  else if targetUri ∈ s.keys then s
  else { s with keys := targetUri :: s.keys }

/-- A runner's `finally` block (src/main.js line 525): the terminating runner
deletes its own key. -/
def finishSegmentStream (s : SegState) (targetUri : String) : SegState :=
  { s with keys := s.keys.erase targetUri }

/-- `cleanup` (src/main.js lines 361-379): the connection abort controller
fires, then `cleanupSegments` clears the registry. -/
def cleanupSegments (_s : SegState) : SegState :=
  { aborted := true, keys := [] }

/-- States reachable from the initial supervisor state (not aborted, no
runners) by starting runners, finishing runners, and tearing down. -/
inductive SegReachable : SegState → Prop
  | init : SegReachable ⟨false, []⟩
  | start {s : SegState} (uri : String) :
      SegReachable s → SegReachable (startSegmentStream s uri)
  | finish {s : SegState} (uri : String) :
      SegReachable s → SegReachable (finishSegmentStream s uri)
  | teardown {s : SegState} :
      SegReachable s → SegReachable (cleanupSegments s)

theorem segReachable_nodup {s : SegState} (h : SegReachable s) : s.keys.Nodup := by
  induction h with
  | init => simp
  | start uri _ ih =>
    unfold startSegmentStream
    split
    · exact ih
    · split
      · exact ih
      · next hmem => exact List.Nodup.cons hmem ih
  | finish uri _ ih => exact List.Nodup.erase _ ih
  | teardown _ _ => simp [cleanupSegments]

/-- C5: the segment-runner registry keeps at most one active runner per exact
fully-qualified target URL.  In every reachable supervisor state the keys are
distinct; starting a runner whose computed target URL is already present (or
starting after abort) is a no-op that leaves the state unchanged; and a
running key disappears only through that runner's own termination
(`finishSegmentStream` removes exactly its key) or connection teardown. -/
theorem claim_C5_segment_runner_unique :
    (∀ s : SegState, SegReachable s → s.keys.Nodup) ∧
    (∀ (s : SegState) (uri : String), uri ∈ s.keys → startSegmentStream s uri = s) ∧
    (∀ (s : SegState) (uri : String), s.aborted = true → startSegmentStream s uri = s) ∧
    (∀ (s : SegState) (uri : String), SegReachable s →
      (finishSegmentStream s uri).keys = s.keys.erase uri) := by
  refine ⟨fun s h => segReachable_nodup h, ?_, ?_, ?_⟩
  · intro s uri hmem
    unfold startSegmentStream
    by_cases ha : s.aborted
    · rw [if_pos ha]
    · rw [if_neg ha, if_pos hmem]
  · intro s uri habort
    unfold startSegmentStream
    rw [if_pos habort]
  · intro s uri _
    rfl

/-- C5 witness: from the initial state, starting the same target twice keeps a
single key, and the duplicate start is a literal no-op. -/
theorem claim_C5_segment_runner_unique_witness :
    ((startSegmentStream ⟨false, ["https://a/ws?at=now"]⟩ "https://a/ws?at=now").keys.Nodup) ∧
    ("https://a/ws?at=now" ∈ (["https://a/ws?at=now"] : List String) ∧
      startSegmentStream ⟨false, ["https://a/ws?at=now"]⟩ "https://a/ws?at=now"
        = ⟨false, ["https://a/ws?at=now"]⟩) ∧
    ((⟨true, []⟩ : SegState).aborted = true ∧
      startSegmentStream ⟨true, []⟩ "https://a/ws?at=now" = ⟨true, []⟩) ∧
    (finishSegmentStream ⟨false, ["https://a/ws?at=now"]⟩ "https://a/ws?at=now").keys
      = (["https://a/ws?at=now"] : List String).erase "https://a/ws?at=now" :=
  ⟨claim_C5_segment_runner_unique.1 _
      (SegReachable.start _ (SegReachable.start "https://a/ws?at=now" SegReachable.init)),
    ⟨by decide, claim_C5_segment_runner_unique.2.1 _ _ (by decide)⟩,
    ⟨rfl, claim_C5_segment_runner_unique.2.2.1 _ _ rfl⟩,
    claim_C5_segment_runner_unique.2.2.2 _ _
      (SegReachable.start "https://a/ws?at=now" SegReachable.init)⟩

/-! ## Connection supervisor (src/main.js `connections`, `parseNiconicoId`,
`connectNiconico` lines 241-266, `connectTwitch` lines 825-847)

`connections` is a single map keyed by `"<kind>:<natural-key>"`.  Both connect
paths check `connections.has(id)` before inserting and report a duplicate via
a status message without touching the existing entry.  The models below cover
each function up to the registry insertion; everything after it is network
I/O. -/

/-- Leftmost match of the regular expression `lv\\d+` (case-insensitive,
greedy digits), lowercased, as in `trimmed.match(/lv\\d+/i)` followed by
`.toLowerCase()` (src/main.js lines 229-230). -/
def findLvMatch : List Char → Option (List Char)
  | [] => none
  | c :: rest =>
    if c = 'l' ∨ c = 'L' then
      match rest with
      | [] => none
      | v :: rest2 =>
        if v = 'v' ∨ v = 'V' then
          match rest2 with
          | [] => none
          | d :: _ =>
            if d.isDigit then some ('l' :: 'v' :: rest2.takeWhile Char.isDigit)
            else findLvMatch rest
        else findLvMatch rest
    else findLvMatch rest

/-- JavaScript `String.prototype.trim` over the ASCII whitespace range
(kernel-computable model of `String.trim`). -/
def jsTrim (s : String) : String :=
  String.mk (((s.data.dropWhile Char.isWhitespace).reverse.dropWhile Char.isWhitespace).reverse)

/-- `parseNiconicoId(raw)` (src/main.js lines 225-239).  The `new URL`
fallback branch (lines 232-238) is modelled as `none`: a pathname segment
matching `^lv\\d+$` is itself an `lv\\d+` substring of the input, so for inputs
free of embedded control characters the regex above already caught it. -/
def parseNiconicoId (raw : String) : Option String :=
  let trimmed := jsTrim raw
  if trimmed = "" then none
  else
    match findLvMatch trimmed.data with
    | some m => some (String.mk m)
    | none => none

/-- A `ConnectionHandle` as stored in the `connections` map (src/main.js
lines 257-263 and 838-844); the `disconnect` closure is omitted. -/
structure Handle where
  id : String
  type : String
  label : String
  status : String
deriving DecidableEq

/-- Events the supervisor emits to the host while (dis)connecting. -/
inductive HostEvent where
  | status (text : String)
  | broadcast
deriving DecidableEq

/-- `connectNiconico(liveUrlOrId)` (src/main.js lines 241-266) up to the
registry insertion: parse failure and duplicate ids report a status and leave
the map unchanged; otherwise the handle is inserted and the connection list is
broadcast. -/
def connectNiconicoModel (conns : List (String × Handle)) (input : String) :
    List (String × Handle) × List HostEvent :=
  match parseNiconicoId input with
  | none => (conns, [.status "ニコ生のURLまたはID (lv～) を入力してね"])
  | some liveId =>
    let id := "niconico:" ++ liveId
    if id ∈ conns.map Prod.fst then
      (conns, [.status (liveId ++ " は既に接続中です")])
    else
      (conns ++ [(id, ⟨id, "niconico", "ニコ生 " ++ liveId, "ニコ生に接続中…"⟩)],
        [.broadcast])

/-- `connectTwitch(channelRaw)` (src/main.js lines 825-847) after
`parseTwitchChannel`, up to the registry insertion. -/
def connectTwitchModel (conns : List (String × Handle)) (channel : String) :
    List (String × Handle) × List HostEvent :=
  if channel = "" then (conns, [.status "チャンネル名を入力してね"])
  else
    let id := "twitch:" ++ channel
    if id ∈ conns.map Prod.fst then
      (conns, [.status ("#" ++ channel ++ " は既に接続中です")])
    else
      (conns ++ [(id, ⟨id, "twitch", "Twitch #" ++ channel, "接続中…"⟩)],
        [.broadcast])

/-- C6: connection ids are unique in the supervisor's live map.  A niconico or
twitch connect request whose derived id (`"niconico:<lvId>"` /
`"twitch:<channel>"`) is already live adds no handle, leaves the map unchanged
and emits a duplicate status; in particular two consecutive `connect("lv42")`
calls leave exactly one live handle `"niconico:lv42"` and the second call
reports the duplicate. -/
theorem claim_C6_unique_connection_ids :
    (∀ (conns : List (String × Handle)) (input liveId : String),
      parseNiconicoId input = some liveId →
      ("niconico:" ++ liveId) ∈ conns.map Prod.fst →
      connectNiconicoModel conns input = (conns, [.status (liveId ++ " は既に接続中です")])) ∧
    (∀ (conns : List (String × Handle)) (channel : String),
      channel ≠ "" →
      ("twitch:" ++ channel) ∈ conns.map Prod.fst →
      connectTwitchModel conns channel = (conns, [.status ("#" ++ channel ++ " は既に接続中です")])) ∧
    ((connectNiconicoModel (connectNiconicoModel [] "lv42").1 "lv42").1.map Prod.fst
        = ["niconico:lv42"] ∧
      (connectNiconicoModel (connectNiconicoModel [] "lv42").1 "lv42").2
        = [.status "lv42 は既に接続中です"]) := by
  refine ⟨?_, ?_, ?_, ?_⟩
  · intro conns input liveId hparse hmem
    unfold connectNiconicoModel
    rw [hparse]
    simp only [hmem, if_pos]
  · intro conns channel hne hmem
    unfold connectTwitchModel
    rw [if_neg hne]
    simp only [hmem, if_pos]
  · decide
  · decide

/-- C6 witness: a second `connect("lv42")` against a map already holding
`"niconico:lv42"` (and a second twitch connect against `"twitch:ch"`) leaves
the map unchanged and reports the duplicate. -/
theorem claim_C6_unique_connection_ids_witness :
    (parseNiconicoId "lv42" = some "lv42" ∧
      ("niconico:" ++ "lv42") ∈
        ([("niconico:" ++ "lv42", (⟨"a", "b", "c", "d"⟩ : Handle))]).map Prod.fst ∧
      connectNiconicoModel [("niconico:" ++ "lv42", ⟨"a", "b", "c", "d"⟩)] "lv42"
        = ([("niconico:" ++ "lv42", ⟨"a", "b", "c", "d"⟩)],
            [.status ("lv42" ++ " は既に接続中です")])) ∧
    (("ch" : String) ≠ "" ∧
      ("twitch:" ++ "ch") ∈
        ([("twitch:" ++ "ch", (⟨"a", "b", "c", "d"⟩ : Handle))]).map Prod.fst ∧
      connectTwitchModel [("twitch:" ++ "ch", ⟨"a", "b", "c", "d"⟩)] "ch"
        = ([("twitch:" ++ "ch", ⟨"a", "b", "c", "d"⟩)],
            [.status ("#" ++ "ch" ++ " は既に接続中です")])) :=
  ⟨⟨by decide, by decide,
      claim_C6_unique_connection_ids.1 _ "lv42" "lv42" (by decide) (by decide)⟩,
    ⟨by decide, by decide,
      claim_C6_unique_connection_ids.2.1 _ "ch" (by decide) (by decide)⟩⟩

/-! ## Protobuf-wire Reader primitives

`Reader` appears three times in the sources with byte-identical `uint32`,
`uint64`, `int64` and `string` methods: src/proto/nicolive.js lines 6-79,
src/proto/ndgr.js lines 7-88, and the merged decoder carried in
src/renderer.js lines 178-264.  The only behavioural difference is `skipType`:
the renderer variant treats the deprecated end-group wire type 4 as a no-op
(src/renderer.js lines 254-256) while the nicolive/ndgr variants throw
`unsupported wire type 4`.

The reader state is the byte buffer plus a cursor `pos`; methods return the
value and the new cursor, or `none` for a thrown `unexpected eof`. -/

/-- `Reader.uint32` accumulator: JavaScript keeps `value |= (b & 0x7f) << shift`
in 32-bit integer arithmetic and only accumulates while `shift < 32`, then
returns `value >>> 0`; continuation bytes beyond the fifth group are consumed
but ignored.  Returns the value and the number of bytes consumed. -/
def u32Aux : List Nat → Nat → Nat → Option (Nat × Nat)
  | [], _, _ => none
  | b :: rest, shift, acc =>
    let acc' := if shift < 32 then acc + b % 128 * 2 ^ shift else acc
    if b % 256 < 128 then some (acc' % 2 ^ 32, 1)
    else
      match u32Aux rest (shift + 7) acc' with
      | none => none
      | some (v, k) => some (v, k + 1)

/-- `Reader.uint32` at a cursor. -/
def readerUint32 (buf : List Nat) (pos : Nat) : Option (Nat × Nat) :=
  match u32Aux (buf.drop pos) 0 0 with
  | none => none
  | some (v, k) => some (v, pos + k)

/-- `Reader.uint64` (and `Reader.int64`, which just calls it): exact BigInt
accumulation, so it coincides with `readVarint` on the remaining bytes. -/
def readerUint64 (buf : List Nat) (pos : Nat) : Option (Nat × Nat) :=
  match readVarint (buf.drop pos) with
  | none => none
  | some (v, k) => some (v, pos + k)

/-- `asNumber` (src/proto/nicolive.js lines 81-88, src/renderer.js lines
274-281): numbers pass through and BigInts at or below `Number.MAX_SAFE_INTEGER`
become numbers; both directions are exact in this model. -/
def asNumber (v : Nat) : Nat := v

/-- `Reader.string` / `Reader.bytes`: a varint length, then that many bytes;
throws when the slice runs past the end of the buffer.  The decoded text is
kept as its UTF-8 bytes. -/
def readerBytes (buf : List Nat) (pos : Nat) : Option (List Nat × Nat) :=
  match readerUint32 buf pos with
  | none => none
  | some (len, p) =>
    if p + len > buf.length then none
    else some ((buf.drop p).take len, p + len)

/-- The bytes consumed by `skipType` for wire type 0: advance until a byte
without the continuation bit, stopping silently at the end of the buffer. -/
def skipVarintLen : List Nat → Nat
  | [] => 0
  | b :: rest => if b % 256 < 128 then 1 else 1 + skipVarintLen rest

/-- `Reader.skipType` of src/proto/nicolive.js lines 57-78 (same in
src/proto/ndgr.js): wire types 0, 1, 2, 5 as in the wire format; everything
else — including the deprecated end-group type 4 — throws. -/
def skipTypeN (buf : List Nat) (pos wireType : Nat) : Option Nat :=
  match wireType with
  | 0 => some (pos + skipVarintLen (buf.drop pos))
  | 1 => some (pos + 8)
  | 2 =>
    match readerUint32 buf pos with
    | none => none
    | some (len, p) => some (p + len)
  | 5 => some (pos + 4)
  | _ => none

/-- `Reader.skipType` of the merged decoder (src/renderer.js lines 239-263):
identical to the nicolive variant except that wire type 4 is a no-op. -/
def skipTypeR (buf : List Nat) (pos wireType : Nat) : Option Nat :=
  match wireType with
  | 0 => some (pos + skipVarintLen (buf.drop pos))
  | 1 => some (pos + 8)
  | 2 =>
    match readerUint32 buf pos with
    | none => none
    | some (len, p) => some (p + len)
  | 4 => some pos
  | 5 => some (pos + 4)
  | _ => none

theorem u32Aux_encode_general (v : Nat) :
    ∀ (shift acc : Nat) (rest : List Nat), shift < 32 → acc < 2 ^ shift →
      v < 2 ^ (32 - shift) →
      u32Aux (encodeVarint v ++ rest) shift acc
        = some (acc + v * 2 ^ shift, (encodeVarint v).length) := by
  induction v using Nat.strong_induction_on with
  | _ v ih =>
    intro shift acc rest hshift hacc hv
    have horder : (v + 1) * 2 ^ shift ≤ 2 ^ 32 := by
      calc (v + 1) * 2 ^ shift ≤ 2 ^ (32 - shift) * 2 ^ shift :=
            Nat.mul_le_mul_right _ (by omega)
        _ = 2 ^ 32 := by rw [← pow_add]; congr 1; omega
    rw [encodeVarint_eq]
    by_cases hsmall : v < 128
    · have hb : v % 256 < 128 := by omega
      have hmod : (acc + v % 128 * 2 ^ shift) % 4294967296 = acc + v * 2 ^ shift := by
        have h128 : v % 128 = v := Nat.mod_eq_of_lt hsmall
        rw [h128]
        apply Nat.mod_eq_of_lt
        have h1 : acc + v * 2 ^ shift < (v + 1) * 2 ^ shift := by
          have h2p : (1 : Nat) ≤ 2 ^ shift := Nat.one_le_two_pow
          nlinarith
        have h2 : (2 : Nat) ^ 32 = 4294967296 := by norm_num
        omega
      simp [hsmall, u32Aux, if_pos hshift, hb, hmod]
    · have hv128 : 128 ≤ v := le_of_not_lt hsmall
      have hshift7 : shift + 7 < 32 := by
        by_contra hcon
        have h25 : 25 ≤ shift := by omega
        have : 2 ^ (32 - shift) ≤ 2 ^ 7 :=
          Nat.pow_le_pow_right (by norm_num) (by omega)
        omega
      have hb : (v % 128 + 128) % 256 = v % 128 + 128 := by
        have := Nat.mod_lt v (show 0 < 128 by norm_num)
        omega
      have hnot : ¬ (v % 128 + 128) % 256 < 128 := by omega
      simp only [if_neg hsmall, List.cons_append, u32Aux, if_pos hshift, hnot, if_false]
      have hrec := ih (v / 128) (Nat.div_lt_self (by omega) (by omega))
        (shift + 7) (acc + v % 128 * 2 ^ shift) rest hshift7
        (by
          have h1 : acc + v % 128 * 2 ^ shift < 128 * 2 ^ shift := by
            have := Nat.mod_lt v (show 0 < 128 by norm_num)
            nlinarith
          calc acc + v % 128 * 2 ^ shift < 128 * 2 ^ shift := h1
            _ = 2 ^ (shift + 7) := by rw [pow_add]; ring)
        (by
          have heq : 32 - (shift + 7) = 32 - shift - 7 := by omega
          rw [heq]
          have hlt : v / 128 < 2 ^ (32 - shift - 7) ↔ v < 2 ^ (32 - shift - 7) * 128 :=
            Nat.div_lt_iff_lt_mul (by norm_num)
          rw [hlt]
          have : 2 ^ (32 - shift - 7) * 128 = 2 ^ (32 - shift) := by
            rw [show (128 : Nat) = 2 ^ 7 by norm_num, ← pow_add]
            congr 1
            omega
          omega)
      have hmod128 : (v % 128 + 128) % 128 = v % 128 := by omega
      rw [hmod128, hrec]
      have hval : acc + v % 128 * 2 ^ shift + v / 128 * 2 ^ (shift + 7)
          = acc + v * 2 ^ shift := by
        have hsplit := Nat.mod_add_div v 128
        calc acc + v % 128 * 2 ^ shift + v / 128 * 2 ^ (shift + 7)
            = acc + (v % 128 + 128 * (v / 128)) * 2 ^ shift := by rw [pow_add]; ring
          _ = acc + v * 2 ^ shift := by rw [hsplit]
      simp [hval]

/-- `Reader.uint32` agrees with the exact varint value below `2 ^ 32`. -/
theorem u32Aux_encode {v : Nat} (hv : v < 2 ^ 32) (rest : List Nat) :
    u32Aux (encodeVarint v ++ rest) 0 0 = some (v, (encodeVarint v).length) := by
  have := u32Aux_encode_general v 0 0 rest (by norm_num) (by norm_num) (by simpa using hv)
  simpa using this

theorem u32Aux_single {b : Nat} (hb : b < 128) (rest : List Nat) :
    u32Aux (b :: rest) 0 0 = some (b, 1) := by
  have h256 : b % 256 < 128 := by omega
  have h128 : b % 128 = b := Nat.mod_eq_of_lt hb
  have h32 : b % 4294967296 = b := by omega
  simp [u32Aux, h256, h128, h32]

/-- `skipType` for wire type 0 consumes exactly the bytes of a terminated
varint. -/
theorem skipVarintLen_eq {l : List Nat} {n h : Nat}
    (hread : readVarint l = some (n, h)) : skipVarintLen l = h := by
  induction l generalizing n h with
  | nil => simp [readVarint] at hread
  | cons b rest ih =>
    by_cases hb : b % 256 < 128
    · simp [readVarint, hb] at hread
      simp [skipVarintLen, hb, hread.2]
    · simp only [readVarint, if_neg hb] at hread
      match hr : readVarint rest with
      | none => rw [hr] at hread; simp at hread
      | some (v, len) =>
        rw [hr] at hread
        simp only [Option.some.injEq, Prod.mk.injEq] at hread
        simp only [skipVarintLen, if_neg hb, ih hr]
        omega

/-- Cursor-level restatement of `readVarint_encode_append`. -/
theorem readerUint64_at {buf : List Nat} {pos v : Nat} {rest : List Nat}
    (h : buf.drop pos = encodeVarint v ++ rest) :
    readerUint64 buf pos = some (v, pos + (encodeVarint v).length) := by
  simp [readerUint64, h, readVarint_encode_append]

/-- Cursor-level restatement of `u32Aux_encode`. -/
theorem readerUint32_at {buf : List Nat} {pos v : Nat} {rest : List Nat}
    (h : buf.drop pos = encodeVarint v ++ rest) (hv : v < 2 ^ 32) :
    readerUint32 buf pos = some (v, pos + (encodeVarint v).length) := by
  simp [readerUint32, h, u32Aux_encode hv]

/-- C8 counterexample: the claim says the frame reader's skip treats the
deprecated end-group wire type 4 as a no-op, citing both readers.  The
nicolive/ndgr `Reader.skipType` (src/proto/nicolive.js lines 57-78) has no
case 4 and throws `unsupported wire type`; only the merged renderer variant
no-ops. -/
theorem claim_C8_counterexample :
    skipTypeN [0] 0 4 = none ∧ skipTypeR [0] 0 4 = some 0 := by
  decide

/-- C8 (amended): for both readers, wire type 0 consumes one varint, wire
type 1 consumes 8 bytes, wire type 2 consumes a varint length plus that many
bytes, wire type 5 consumes 4 bytes, and wire types 3, 6, 7 fail; wire type 4
is a no-op in the renderer's reader but fails in the nicolive/ndgr reader. -/
theorem claim_C8_skip_behavior :
    (∀ (buf : List Nat) (pos n h : Nat),
      readVarint (buf.drop pos) = some (n, h) →
      skipTypeR buf pos 0 = some (pos + h) ∧ skipTypeN buf pos 0 = some (pos + h)) ∧
    (∀ (buf : List Nat) (pos : Nat),
      skipTypeR buf pos 1 = some (pos + 8) ∧ skipTypeN buf pos 1 = some (pos + 8)) ∧
    (∀ (buf : List Nat) (pos len p : Nat),
      readerUint32 buf pos = some (len, p) →
      skipTypeR buf pos 2 = some (p + len) ∧ skipTypeN buf pos 2 = some (p + len)) ∧
    (∀ (buf : List Nat) (pos : Nat),
      skipTypeR buf pos 5 = some (pos + 4) ∧ skipTypeN buf pos 5 = some (pos + 4)) ∧
    (∀ (buf : List Nat) (pos : Nat),
      skipTypeR buf pos 4 = some pos ∧ skipTypeN buf pos 4 = none) ∧
    (∀ (buf : List Nat) (pos wt : Nat), wt = 3 ∨ wt = 6 ∨ wt = 7 →
      skipTypeR buf pos wt = none ∧ skipTypeN buf pos wt = none) := by
  refine ⟨?_, fun _ _ => ⟨rfl, rfl⟩, ?_, fun _ _ => ⟨rfl, rfl⟩,
    fun _ _ => ⟨rfl, rfl⟩, ?_⟩
  · intro buf pos n h hread
    rw [skipTypeR, skipTypeN, skipVarintLen_eq hread]
    exact ⟨rfl, rfl⟩
  · intro buf pos len p hread
    rw [skipTypeR, skipTypeN, hread]
    exact ⟨rfl, rfl⟩
  · rintro buf pos wt (rfl | rfl | rfl) <;> exact ⟨rfl, rfl⟩

/-- C8 amended-claim witness across all six wire-type clauses. -/
theorem claim_C8_skip_behavior_witness :
    (readVarint (([200, 7, 1] : List Nat).drop 0) = some (968, 2) ∧
      skipTypeR [200, 7, 1] 0 0 = some 2 ∧ skipTypeN [200, 7, 1] 0 0 = some 2) ∧
    (skipTypeR [1] 0 1 = some 8 ∧ skipTypeN [1] 0 1 = some 8) ∧
    (readerUint32 [2, 9, 9] 0 = some (2, 1) ∧
      skipTypeR [2, 9, 9] 0 2 = some 3 ∧ skipTypeN [2, 9, 9] 0 2 = some 3) ∧
    (skipTypeR [1] 0 5 = some 4 ∧ skipTypeN [1] 0 5 = some 4) ∧
    (skipTypeR [1] 0 4 = some 0 ∧ skipTypeN [1] 0 4 = none) ∧
    (skipTypeR [1] 0 3 = none ∧ skipTypeN [1] 0 3 = none) :=
  ⟨⟨by decide,
      (claim_C8_skip_behavior.1 [200, 7, 1] 0 968 2 (by decide)).1,
      (claim_C8_skip_behavior.1 [200, 7, 1] 0 968 2 (by decide)).2⟩,
    claim_C8_skip_behavior.2.1 [1] 0,
    ⟨by decide,
      (claim_C8_skip_behavior.2.2.1 [2, 9, 9] 0 2 1 (by decide)).1,
      (claim_C8_skip_behavior.2.2.1 [2, 9, 9] 0 2 1 (by decide)).2⟩,
    claim_C8_skip_behavior.2.2.2.1 [1] 0,
    claim_C8_skip_behavior.2.2.2.2.1 [1] 0,
    claim_C8_skip_behavior.2.2.2.2.2 [1] 0 3 (Or.inl rfl)⟩

/-! ## View-stream decoders of src/proto/nicolive.js (lines 90-244)

Decoded messages are structures whose optional fields start absent and are
overwritten as fields arrive (JavaScript object assignment); a field assigned
`null` and an absent field collapse to `none`, matching every downstream
`!= null` test.  Each `while (reader.pos < end)` loop is a fuel-indexed
recursion; wrappers pass `buf.length + 1` fuel, which bounds the iteration
count because every iteration first consumes at least one tag byte. -/

/-- `decodeViewSegment` result (fields 1 `uri`, 2 `from`, 3 `until`). -/
structure NSegment where
  uri : Option (List Nat) := none
  from_ : Option Nat := none
  until_ : Option Nat := none
deriving DecidableEq

/-- `decodeNext` result (fields 1 `at`, 2 `cursor`). -/
structure NNext where
  at_ : Option Nat := none
  cursor : Option (List Nat) := none
deriving DecidableEq

/-- `decodePrevious` result (fields 1 `at`, 2 `cursor`). -/
structure NPrevious where
  at_ : Option Nat := none
  cursor : Option (List Nat) := none
deriving DecidableEq

/-- `decodeReconnect` result (fields 1 `at`, 2 `streamUrl`, 3 `cursor`). -/
structure NReconnect where
  at_ : Option Nat := none
  streamUrl : Option (List Nat) := none
  cursor : Option (List Nat) := none
deriving DecidableEq

/-- `decodeEntry` result (fields 1-6: segment, next, previous, reconnect,
ping, history). -/
structure NEntry where
  segment : Option NSegment := none
  next : Option NNext := none
  previous : Option NPrevious := none
  reconnect : Option NReconnect := none
  ping : Bool := false
  history : Bool := false
deriving DecidableEq

/-- `decodeViewSegment(reader, length)` loop (src/proto/nicolive.js lines
91-112). -/
def decodeViewSegmentLoopN (fuel : Nat) (buf : List Nat) (pos end_ : Nat)
    (msg : NSegment) : Option (NSegment × Nat) :=
  if pos ≥ end_ then some (msg, pos)
  else
    match fuel with
    | 0 => none
    | fuel + 1 =>
      match readerUint32 buf pos with
      | none => none
      | some (tag, p1) =>
        match tag / 8 with
        | 1 =>
          match readerBytes buf p1 with
          | none => none
          | some (s, p2) => decodeViewSegmentLoopN fuel buf p2 end_ { msg with uri := some s }
        | 2 =>
          match readerUint64 buf p1 with
          | none => none
          | some (v, p2) =>
            decodeViewSegmentLoopN fuel buf p2 end_ { msg with from_ := some (asNumber v) }
        | 3 =>
          match readerUint64 buf p1 with
          | none => none
          | some (v, p2) =>
            decodeViewSegmentLoopN fuel buf p2 end_ { msg with until_ := some (asNumber v) }
        | _ =>
          match skipTypeN buf p1 (tag % 8) with
          | none => none
          | some p2 => decodeViewSegmentLoopN fuel buf p2 end_ msg

/-- `decodeNext(reader, length)` loop (src/proto/nicolive.js lines 114-132). -/
def decodeNextLoopN (fuel : Nat) (buf : List Nat) (pos end_ : Nat)
    (msg : NNext) : Option (NNext × Nat) :=
  if pos ≥ end_ then some (msg, pos)
  else
    match fuel with
    | 0 => none
    | fuel + 1 =>
      match readerUint32 buf pos with
      | none => none
      | some (tag, p1) =>
        match tag / 8 with
        | 1 =>
          match readerUint64 buf p1 with
          | none => none
          | some (v, p2) => decodeNextLoopN fuel buf p2 end_ { msg with at_ := some (asNumber v) }
        | 2 =>
          match readerBytes buf p1 with
          | none => none
          | some (s, p2) => decodeNextLoopN fuel buf p2 end_ { msg with cursor := some s }
        | _ =>
          match skipTypeN buf p1 (tag % 8) with
          | none => none
          | some p2 => decodeNextLoopN fuel buf p2 end_ msg

/-- `decodePrevious(reader, length)` loop (src/proto/nicolive.js lines
134-152); textually the same field layout as `decodeNext`. -/
def decodePreviousLoopN (fuel : Nat) (buf : List Nat) (pos end_ : Nat)
    (msg : NPrevious) : Option (NPrevious × Nat) :=
  if pos ≥ end_ then some (msg, pos)
  else
    match fuel with
    | 0 => none
    | fuel + 1 =>
      match readerUint32 buf pos with
      | none => none
      | some (tag, p1) =>
        match tag / 8 with
        | 1 =>
          match readerUint64 buf p1 with
          | none => none
          | some (v, p2) =>
            decodePreviousLoopN fuel buf p2 end_ { msg with at_ := some (asNumber v) }
        | 2 =>
          match readerBytes buf p1 with
          | none => none
          | some (s, p2) => decodePreviousLoopN fuel buf p2 end_ { msg with cursor := some s }
        | _ =>
          match skipTypeN buf p1 (tag % 8) with
          | none => none
          | some p2 => decodePreviousLoopN fuel buf p2 end_ msg

/-- `decodeReconnect(reader, length)` loop (src/proto/nicolive.js lines
154-175). -/
def decodeReconnectLoopN (fuel : Nat) (buf : List Nat) (pos end_ : Nat)
    (msg : NReconnect) : Option (NReconnect × Nat) :=
  if pos ≥ end_ then some (msg, pos)
  else
    match fuel with
    | 0 => none
    | fuel + 1 =>
      match readerUint32 buf pos with
      | none => none
      | some (tag, p1) =>
        match tag / 8 with
        | 1 =>
          match readerUint64 buf p1 with
          | none => none
          | some (v, p2) =>
            decodeReconnectLoopN fuel buf p2 end_ { msg with at_ := some (asNumber v) }
        | 2 =>
          match readerBytes buf p1 with
          | none => none
          | some (s, p2) =>
            decodeReconnectLoopN fuel buf p2 end_ { msg with streamUrl := some s }
        | 3 =>
          match readerBytes buf p1 with
          | none => none
          | some (s, p2) => decodeReconnectLoopN fuel buf p2 end_ { msg with cursor := some s }
        | _ =>
          match skipTypeN buf p1 (tag % 8) with
          | none => none
          | some p2 => decodeReconnectLoopN fuel buf p2 end_ msg

/-- `decodeEntry(reader, length)` loop (src/proto/nicolive.js lines 177-207).
Nested messages are decoded in place with `end = pos + reader.uint32()`;
fields 5 and 6 set a flag without consuming any payload, exactly as in the
source. -/
def decodeEntryLoopN (fuel : Nat) (buf : List Nat) (pos end_ : Nat)
    (msg : NEntry) : Option (NEntry × Nat) :=
  if pos ≥ end_ then some (msg, pos)
  else
    match fuel with
    | 0 => none
    | fuel + 1 =>
      match readerUint32 buf pos with
      | none => none
      | some (tag, p1) =>
        match tag / 8 with
        | 1 =>
          match readerUint32 buf p1 with
          | none => none
          | some (len, p2) =>
            match decodeViewSegmentLoopN (buf.length + 1) buf p2 (p2 + len) {} with
            | none => none
            | some (m, p3) => decodeEntryLoopN fuel buf p3 end_ { msg with segment := some m }
        | 2 =>
          match readerUint32 buf p1 with
          | none => none
          | some (len, p2) =>
            match decodeNextLoopN (buf.length + 1) buf p2 (p2 + len) {} with
            | none => none
            | some (m, p3) => decodeEntryLoopN fuel buf p3 end_ { msg with next := some m }
        | 3 =>
          match readerUint32 buf p1 with
          | none => none
          | some (len, p2) =>
            match decodePreviousLoopN (buf.length + 1) buf p2 (p2 + len) {} with
            | none => none
            | some (m, p3) => decodeEntryLoopN fuel buf p3 end_ { msg with previous := some m }
        | 4 =>
          match readerUint32 buf p1 with
          | none => none
          | some (len, p2) =>
            match decodeReconnectLoopN (buf.length + 1) buf p2 (p2 + len) {} with
            | none => none
            | some (m, p3) => decodeEntryLoopN fuel buf p3 end_ { msg with reconnect := some m }
        | 5 => decodeEntryLoopN fuel buf p1 end_ { msg with ping := true }
        | 6 => decodeEntryLoopN fuel buf p1 end_ { msg with history := true }
        | _ =>
          match skipTypeN buf p1 (tag % 8) with
          | none => none
          | some p2 => decodeEntryLoopN fuel buf p2 end_ msg

/-- `decodeEntry` over a length-delimited range starting at `pos`. -/
def decodeEntryN (buf : List Nat) (pos len : Nat) : Option (NEntry × Nat) :=
  decodeEntryLoopN (buf.length + 1) buf pos (pos + len) {}

/-- `decodeChunkedEntry` loop (src/proto/nicolive.js lines 209-227): only
field #1 submessages become entries; field #2 is deliberately skipped (see
the comment at lines 219-222 of the source). -/
def decodeChunkedEntryLoopN (fuel : Nat) (buf : List Nat) (pos : Nat)
    (entries : List NEntry) : Option (List NEntry) :=
  if pos ≥ buf.length then some entries
  else
    match fuel with
    | 0 => none
    | fuel + 1 =>
      match readerUint32 buf pos with
      | none => none
      | some (tag, p1) =>
        match tag / 8 with
        | 1 =>
          match readerUint32 buf p1 with
          | none => none
          | some (len, p2) =>
            match decodeEntryN buf p2 len with
            | none => none
            | some (e, p3) => decodeChunkedEntryLoopN fuel buf p3 (entries ++ [e])
        | _ =>
          match skipTypeN buf p1 (tag % 8) with
          | none => none
          | some p2 => decodeChunkedEntryLoopN fuel buf p2 entries

/-- `decodeChunkedEntry(buf)` (src/proto/nicolive.js lines 209-227), returning
the `entries` list. -/
def decodeChunkedEntryN (buf : List Nat) : Option (List NEntry) :=
  decodeChunkedEntryLoopN (buf.length + 1) buf 0 []

/-- `decodeViewPayload(buf)` (src/proto/nicolive.js lines 229-244): peek the
first tag; fields 1 and 2 with wire type 2 are a `ChunkedEntry` envelope,
anything else a single bare `Entry` spanning the whole buffer; an empty buffer
yields no entries. -/
def decodeViewPayloadN (buf : List Nat) : Option (List NEntry) :=
  if buf.length = 0 then some []
  else
    match readerUint32 buf 0 with
    | none => none
    | some (firstTag, _) =>
      let field := firstTag / 8
      let wireType := firstTag % 8
      if (field = 1 ∨ field = 2) ∧ wireType = 2 then decodeChunkedEntryN buf
      else
        match decodeEntryLoopN (buf.length + 1) buf 0 buf.length {} with
        | none => none
        | some (e, _) => some [e]

/-- C3 counterexample: the payload of `buildSampleA` (src/decode_hex.js lines
25-29), hex `220608ffb784ca06`, decodes to exactly one entry, but its
`reconnect.at` is the varint value `0xffb784ca06` = 1765874687, not the
1765874431 the claim states (the spec's arithmetic is off by 256). -/
theorem claim_C3_counterexample :
    decodeViewPayloadN [0x22, 0x06, 0x08, 0xff, 0xb7, 0x84, 0xca, 0x06]
      = some [{ reconnect := some { at_ := some 1765874687 } }] ∧
    ((1765874687 : Nat) = 1765874431 → False) := by
  decide

/-- C3 (amended): decoding the view payload `220608ffb784ca06` yields a result
with exactly one entry, and that entry's `reconnect.at` equals 1765874687 (the
varint `0xffb784ca06` decoded as seconds). -/
theorem claim_C3_sample_reconnect_decode :
    decodeViewPayloadN [0x22, 0x06, 0x08, 0xff, 0xb7, 0x84, 0xca, 0x06]
      = some [{ reconnect := some { at_ := some 1765874687 } }] := by
  decide

/-! ## Flexible-field helpers of the merged decoder (src/renderer.js lines
266-403)

`safeToUtf8` succeeds exactly on valid UTF-8 (Buffer round-trips through
`toString("utf8")` unchanged iff the bytes are well-formed UTF-8);
`decodeOpaqueCursor` falls back to base64 for non-UTF-8 bytes.  Decoded
strings stay in UTF-8 byte form throughout this model. -/

/-- A UTF-8 continuation byte. -/
def utf8Cont (b : Nat) : Bool := 128 ≤ b && b ≤ 191

/-- Allowed second byte of a three-byte UTF-8 sequence headed by `b`. -/
def utf8Second3 (b c1 : Nat) : Bool :=
  if b = 224 then 160 ≤ c1 && c1 ≤ 191
  else if b = 237 then 128 ≤ c1 && c1 ≤ 159
  else utf8Cont c1

/-- Allowed second byte of a four-byte UTF-8 sequence headed by `b`. -/
def utf8Second4 (b c1 : Nat) : Bool :=
  if b = 240 then 144 ≤ c1 && c1 ≤ 191
  else if b = 244 then 128 ≤ c1 && c1 ≤ 143
  else utf8Cont c1

/-- Well-formed UTF-8 (RFC 3629: no overlong forms, no surrogates, up to
U+10FFFF). -/
def isValidUtf8 : List Nat → Bool
  | [] => true
  | b :: rest =>
    if b < 128 then isValidUtf8 rest
    else if 194 ≤ b && b ≤ 223 then
      match rest with
      | c1 :: rest2 => utf8Cont c1 && isValidUtf8 rest2
      | [] => false
    else if 224 ≤ b && b ≤ 239 then
      match rest with
      | c1 :: c2 :: rest3 => utf8Second3 b c1 && utf8Cont c2 && isValidUtf8 rest3
      | _ => false
    else if 240 ≤ b && b ≤ 244 then
      match rest with
      | c1 :: c2 :: c3 :: rest4 =>
        utf8Second4 b c1 && utf8Cont c2 && utf8Cont c3 && isValidUtf8 rest4
      | _ => false
    else false

/-- `safeToUtf8` (src/renderer.js lines 266-272). -/
def safeToUtf8 (buf : List Nat) : Option (List Nat) :=
  if isValidUtf8 buf then some buf else none

/-- The standard base64 alphabet as byte values. -/
def base64Table : List Nat :=
  [65, 66, 67, 68, 69, 70, 71, 72, 73, 74, 75, 76, 77, 78, 79, 80, 81, 82, 83,
    84, 85, 86, 87, 88, 89, 90, 97, 98, 99, 100, 101, 102, 103, 104, 105, 106,
    107, 108, 109, 110, 111, 112, 113, 114, 115, 116, 117, 118, 119, 120, 121,
    122, 48, 49, 50, 51, 52, 53, 54, 55, 56, 57, 43, 47]

/-- `Buffer.prototype.toString("base64")` with `=` padding. -/
def base64Encode : List Nat → List Nat
  | [] => []
  | [a] => [base64Table.getD (a / 4) 65, base64Table.getD (a % 4 * 16) 65, 61, 61]
  | [a, b] =>
    [base64Table.getD (a / 4) 65, base64Table.getD (a % 4 * 16 + b / 16) 65,
      base64Table.getD (b % 16 * 4) 65, 61]
  | a :: b :: c :: rest =>
    base64Table.getD (a / 4) 65 :: base64Table.getD (a % 4 * 16 + b / 16) 65 ::
      base64Table.getD (b % 16 * 4 + c / 64) 65 :: base64Table.getD (c % 64) 65 ::
        base64Encode rest

/-- `decodeOpaqueCursor(buf)` (src/renderer.js lines 394-403): valid UTF-8
becomes the text cursor; otherwise the cursor is the base64 encoding and the
raw bytes ride along in `cursorBytes`. -/
def decodeOpaqueCursorR (buf : List Nat) : List Nat × Option (List Nat) :=
  if isValidUtf8 buf then (buf, none) else (base64Encode buf, some buf)

/-- ASCII lowercasing of one byte, for the case-insensitive URL test. -/
def lowerByte (b : Nat) : Nat := if 65 ≤ b ∧ b ≤ 90 then b + 32 else b

/-- The test `/^https?:\/\//i.test(str)` on UTF-8 bytes. -/
def isHttpUrl (s : List Nat) : Bool :=
  match s.map lowerByte with
  | 104 :: 116 :: 116 :: 112 :: 115 :: 58 :: 47 :: 47 :: _ => true
  | 104 :: 116 :: 116 :: 112 :: 58 :: 47 :: 47 :: _ => true
  | _ => false

/-- `tryDecodeStringValue(bytes)` loop (src/renderer.js lines 283-297): scan a
fresh reader for field #1 with wire type 2 and return its string; any thrown
error or an exhausted loop yields `null`. -/
def tryDecodeStringValueLoop (fuel : Nat) (buf : List Nat) (pos : Nat) :
    Option (List Nat) :=
  if pos ≥ buf.length then none
  else
    match fuel with
    | 0 => none
    | fuel + 1 =>
      match readerUint32 buf pos with
      | none => none
      | some (tag, p1) =>
        if tag / 8 = 1 ∧ tag % 8 = 2 then
          match readerBytes buf p1 with
          | none => none
          | some (s, _) => some s
        else
          match skipTypeR buf p1 (tag % 8) with
          | none => none
          | some p2 => tryDecodeStringValueLoop fuel buf p2

/-- `tryDecodeStringValue(bytes)` over a fresh reader. -/
def tryDecodeStringValueR (bytes : List Nat) : Option (List Nat) :=
  tryDecodeStringValueLoop (bytes.length + 1) bytes 0

/-- `decodeStringFromBytes(bytes)` (src/renderer.js lines 341-349): prefer the
`StringValue` wrapper, then raw UTF-8 text, else `null`. -/
def decodeStringFromBytes (bytes : List Nat) : Option (List Nat) :=
  match tryDecodeStringValueR bytes with
  | some s => some s
  | none => safeToUtf8 bytes

/-- `readStringFlexible(reader, wireType)` (src/renderer.js lines 351-359):
non-length-delimited fields are skipped and yield `null`. -/
def readStringFlexibleR (buf : List Nat) (pos wireType : Nat) :
    Option (Option (List Nat) × Nat) :=
  if wireType ≠ 2 then
    match skipTypeR buf pos wireType with
    | none => none
    | some p => some (none, p)
  else
    match readerBytes buf pos with
    | none => none
    | some (bytes, p) => some (decodeStringFromBytes bytes, p)

/-- The little-endian `DataView.getBigUint64` over 8 bytes (src/renderer.js
lines 309-316). -/
def readFixed64LE (l : List Nat) : Nat :=
  match l with
  | b0 :: b1 :: b2 :: b3 :: b4 :: b5 :: b6 :: b7 :: _ =>
    b0 + b1 * 2 ^ 8 + b2 * 2 ^ 16 + b3 * 2 ^ 24 + b4 * 2 ^ 32 + b5 * 2 ^ 40 +
      b6 * 2 ^ 48 + b7 * 2 ^ 56
  | _ => 0

/-- Outcome of the scanning loop inside `tryDecodeInt64Value`: a `return`
fired, the loop ran off its end, or an exception reached the `catch`. -/
inductive I64LoopRes where
  | found (v : Option Nat)
  | exhausted
  | threw
deriving DecidableEq

mutual

/-- `tryDecodeInt64Value(bytes)` (src/renderer.js lines 299-339): scan for
field #1 delivered as a varint, a 64-bit fixed little-endian value, or a
nested (recursive) `Int64Value`; when the scan returns nothing — normally or
via the `catch` — fall back to reading the whole buffer as one bare varint. -/
def tryDecodeInt64ValueF : Nat → List Nat → Option Nat
  | 0, _ => none
  | fuel + 1, bytes =>
    match tryI64Loop fuel bytes 0 bytes.length with
    | .found v => v
    | _ =>
      match readVarint bytes with
      | some (v, k) => if k = bytes.length then some v else none
      | none => none

/-- The `while (reader.pos < end)` scan of `tryDecodeInt64Value`. -/
def tryI64Loop : Nat → List Nat → Nat → Nat → I64LoopRes
  | 0, _, _, _ => .threw
  | fuel + 1, buf, pos, end_ =>
    if pos ≥ end_ then .exhausted
    else
      match readerUint32 buf pos with
      | none => .threw
      | some (tag, p1) =>
        let field := tag / 8
        let wireType := tag % 8
        if field = 1 ∧ (wireType = 0 ∨ wireType = 1 ∨ wireType = 2) then
          if wireType = 0 then
            match readerUint64 buf p1 with
            | none => .threw
            | some (v, _) => .found (some (asNumber v))
          else if wireType = 1 then
            if p1 + 8 > buf.length then .threw
            else .found (some (readFixed64LE ((buf.drop p1).take 8)))
          else
            match readerUint32 buf p1 with
            | none => .threw
            | some (len, p2) =>
              if p2 + len > buf.length then .threw
              else .found (tryDecodeInt64ValueF fuel ((buf.drop p2).take len))
        else
          match skipTypeR buf p1 wireType with
          | none => .threw
          | some p2 => tryI64Loop fuel buf p2 end_

end

/-- `tryDecodeInt64Value(bytes)` with canonical fuel. -/
def tryDecodeInt64ValueR (bytes : List Nat) : Option Nat :=
  tryDecodeInt64ValueF (bytes.length + 1) bytes

/-- `readInt64Field(reader, wireType)` (src/renderer.js lines 378-392): a
varint is read directly; a length-delimited field goes through
`tryDecodeInt64Value`; every other wire type — including the 64-bit fixed
type 1 — is skipped and yields `null`. -/
def readInt64FieldR (buf : List Nat) (pos wireType : Nat) :
    Option (Option Nat × Nat) :=
  if wireType = 0 then
    match readerUint64 buf pos with
    | none => none
    | some (v, p) => some (some (asNumber v), p)
  else if wireType = 2 then
    match readerUint32 buf pos with
    | none => none
    | some (len, p) =>
      if p + len > buf.length then none
      else some (tryDecodeInt64ValueR ((buf.drop p).take len), p + len)
  else
    match skipTypeR buf pos wireType with
    | none => none
    | some p => some (none, p)

def toLE64 (v : Nat) : List Nat :=
  [v % 256, v / 2 ^ 8 % 256, v / 2 ^ 16 % 256, v / 2 ^ 24 % 256, v / 2 ^ 32 % 256,
    v / 2 ^ 40 % 256, v / 2 ^ 48 % 256, v / 2 ^ 56 % 256]

theorem readFixed64LE_toLE64 {v : Nat} (hv : v < 2 ^ 64) (rest : List Nat) :
    readFixed64LE (toLE64 v ++ rest) = v := by
  simp only [toLE64, List.cons_append, readFixed64LE]
  omega

def int64Wrapper (v : Nat) : List Nat := 8 :: encodeVarint v

theorem encodeVarint_length_le : ∀ (k : Nat) {v : Nat}, 1 ≤ k → v < 2 ^ (7 * k) →
    (encodeVarint v).length ≤ k := by
  intro k
  induction k with
  | zero => omega
  | succ k ih =>
    intro v _ hv
    rw [encodeVarint_eq]
    by_cases hsmall : v < 128
    · simp [hsmall]
    · rw [if_neg hsmall]
      simp only [List.length_cons]
      have hk : 1 ≤ k := by
        by_contra h0
        have : k = 0 := by omega
        subst this
        simp at hv
        omega
      have hdiv : v / 128 < 2 ^ (7 * k) := by
        have h1 : v < 2 ^ (7 * k) * 128 := by
          have h7 : 7 * (k + 1) = 7 * k + 7 := by ring
          rw [h7, pow_add] at hv
          simpa using hv
        omega
      have := ih hk hdiv
      omega

theorem readInt64FieldR_varint (v : Nat) (rest : List Nat) :
    readInt64FieldR (encodeVarint v ++ rest) 0 0
      = some (some v, (encodeVarint v).length) := by
  rw [readInt64FieldR, if_pos rfl,
    @readerUint64_at (encodeVarint v ++ rest) 0 v rest (by simp)]
  simp [asNumber]

theorem tryDecodeInt64ValueR_wrapper (v : Nat) :
    tryDecodeInt64ValueR (int64Wrapper v) = some v := by
  unfold tryDecodeInt64ValueR int64Wrapper
  rw [tryDecodeInt64ValueF]
  simp only [List.length_cons]
  have hloop : tryI64Loop ((encodeVarint v).length + 1) (8 :: encodeVarint v) 0
      ((encodeVarint v).length + 1) = .found (some v) := by
    rw [tryI64Loop]
    have hpos : ¬ (0 ≥ (encodeVarint v).length + 1) := by omega
    rw [if_neg hpos]
    have htag : readerUint32 (8 :: encodeVarint v) 0 = some (8, 1) := by
      simp [readerUint32, u32Aux_single (by norm_num : (8 : Nat) < 128)]
    rw [htag]
    have h64 : readerUint64 (8 :: encodeVarint v) 1 = some (v, 1 + (encodeVarint v).length) :=
      @readerUint64_at (8 :: encodeVarint v) 1 v [] (by simp)
    simp [h64, asNumber]
  rw [hloop]

theorem readFixed64LE_toLE64' {v : Nat} (hv : v < 2 ^ 64) :
    readFixed64LE (toLE64 v) = v := by
  simp only [toLE64, readFixed64LE]
  omega

theorem tryDecodeInt64ValueR_wrappedFixed (v : Nat) (hv : v < 2 ^ 53) :
    tryDecodeInt64ValueR (9 :: toLE64 v) = some v := by
  have hlen : (9 :: toLE64 v).length = 9 := by simp [toLE64]
  unfold tryDecodeInt64ValueR
  rw [hlen, tryDecodeInt64ValueF]
  have hloop : tryI64Loop 9 (9 :: toLE64 v) 0 (9 :: toLE64 v).length
      = .found (some v) := by
    rw [tryI64Loop]
    rw [if_neg (by simp : ¬ (0 ≥ (9 :: toLE64 v).length))]
    have htag : readerUint32 (9 :: toLE64 v) 0 = some (9, 1) := by
      simp [readerUint32, u32Aux_single (by norm_num : (9 : Nat) < 128)]
    rw [htag]
    have hbound : ¬ (1 + 8 > (9 :: toLE64 v).length) := by
      rw [hlen]
      omega
    have hdrop : ((9 :: toLE64 v).drop 1).take 8 = toLE64 v := by
      simp [toLE64]
    simp only [hbound, hdrop]
    norm_num
    rw [readFixed64LE_toLE64' (by omega)]
  rw [hloop]

theorem readInt64FieldR_wrapped (v : Nat) (rest : List Nat) (hv : v < 2 ^ 64) :
    readInt64FieldR (encodeVarint (int64Wrapper v).length ++ int64Wrapper v ++ rest) 0 2
      = some (some v,
          (encodeVarint (int64Wrapper v).length).length + (int64Wrapper v).length) := by
  have hwlen : (int64Wrapper v).length < 2 ^ 32 := by
    have h10 : (encodeVarint v).length ≤ 10 :=
      encodeVarint_length_le 10 (by norm_num)
        (lt_of_lt_of_le hv (by norm_num : (2 : Nat) ^ 64 ≤ 2 ^ 70))
    simp only [int64Wrapper, List.length_cons]
    omega
  rw [readInt64FieldR]
  rw [if_neg (by norm_num), if_pos rfl]
  rw [@readerUint32_at
    (encodeVarint (int64Wrapper v).length ++ int64Wrapper v ++ rest) 0
    (int64Wrapper v).length (int64Wrapper v ++ rest) (by simp) hwlen]
  simp only [Nat.zero_add]
  have hslice :
      ((encodeVarint (int64Wrapper v).length ++ int64Wrapper v ++ rest).drop
          (encodeVarint (int64Wrapper v).length).length).take (int64Wrapper v).length
        = int64Wrapper v := by
    rw [List.append_assoc, List.drop_left, List.take_left]
  rw [hslice, tryDecodeInt64ValueR_wrapper]
  rw [if_neg (by simp only [List.length_append]; omega)]

theorem readInt64FieldR_fixed64_null (buf : List Nat) (pos : Nat) :
    readInt64FieldR buf pos 1 = some (none, pos + 8) := rfl

/-- C2 counterexample: the claim says a value delivered as a 64-bit fixed
little-endian field decodes to the same integer as the raw varint form.  The
raw varint of 1700000000 does decode, but `readInt64Field` called with wire
type 1 (the little-endian bytes of 1700000000) skips the 8 bytes and yields
`null`, not the integer. -/
theorem claim_C2_counterexample :
    readInt64FieldR [128, 226, 207, 170, 6] 0 0 = some (some 1700000000, 5) ∧
    readInt64FieldR [0, 241, 83, 101, 0, 0, 0, 0] 0 1 = some (none, 8) ∧
    ((none : Option Nat) = some 1700000000 → False) := by
  decide

/-- C2 (amended): `readInt64Field` decodes the same integer from a raw varint
(wire type 0) and from a length-delimited `Int64Value` wrapper whose field #1
carries the integer as a varint (wire type 2); a top-level 64-bit fixed field
(wire type 1) is skipped and yields `null`; fixed64 little-endian data is
decoded only *inside* the wrapper, by `tryDecodeInt64Value` on its field #1
with wire type 1. -/
theorem claim_C2_int64_wire_variants :
    (∀ (v : Nat) (rest : List Nat),
      readInt64FieldR (encodeVarint v ++ rest) 0 0
        = some (some v, (encodeVarint v).length)) ∧
    (∀ (v : Nat) (rest : List Nat), v < 2 ^ 64 →
      readInt64FieldR (encodeVarint (int64Wrapper v).length ++ int64Wrapper v ++ rest) 0 2
        = some (some v,
            (encodeVarint (int64Wrapper v).length).length + (int64Wrapper v).length)) ∧
    (∀ (buf : List Nat) (pos : Nat), readInt64FieldR buf pos 1 = some (none, pos + 8)) ∧
    (∀ v : Nat, v < 2 ^ 53 → tryDecodeInt64ValueR (9 :: toLE64 v) = some v) :=
  ⟨readInt64FieldR_varint,
    fun v rest hv => readInt64FieldR_wrapped v rest hv,
    readInt64FieldR_fixed64_null,
    fun v hv => tryDecodeInt64ValueR_wrappedFixed v hv⟩

/-- C2 amended-claim witness at `v = 300` (varint and wrapper), a wire type 1
skip, and `v = 77` for fixed64 inside the wrapper. -/
theorem claim_C2_int64_wire_variants_witness :
    readInt64FieldR (encodeVarint 300 ++ []) 0 0
      = some (some 300, (encodeVarint 300).length) ∧
    (300 < 2 ^ 64 ∧
      readInt64FieldR (encodeVarint (int64Wrapper 300).length ++ int64Wrapper 300 ++ []) 0 2
        = some (some 300,
            (encodeVarint (int64Wrapper 300).length).length + (int64Wrapper 300).length)) ∧
    readInt64FieldR [7] 3 1 = some (none, 3 + 8) ∧
    (77 < 2 ^ 53 ∧ tryDecodeInt64ValueR (9 :: toLE64 77) = some 77) :=
  ⟨claim_C2_int64_wire_variants.1 300 [],
    ⟨by norm_num, claim_C2_int64_wire_variants.2.1 300 [] (by norm_num)⟩,
    claim_C2_int64_wire_variants.2.2.1 [7] 3,
    ⟨by norm_num, claim_C2_int64_wire_variants.2.2.2 77 (by norm_num)⟩⟩

/-! ## View-entry decoders of the merged decoder (src/renderer.js lines
405-651)

Same conventions as the nicolive decoders; the field layouts differ (the spec
revision behind the merged decoder moved `uri` to field 3 of `Segment`, etc.)
and fields #2/#3 of an entry try a bare URL string first, falling back to a
nested `Next`/`Previous` message. -/

/-- `decodeViewSegment` result (fields 1 `from`, 2 `until`, 3 `uri`,
4 `reconnectAt`). -/
structure RViewSegment where
  from_ : Option Nat := none
  until_ : Option Nat := none
  uri : Option (List Nat) := none
  reconnectAt : Option Nat := none
deriving DecidableEq

/-- `decodeNext` result (fields 1 `at`, 2 `cursor`(+`cursorBytes`), 3 `uri`). -/
structure RNext where
  at_ : Option Nat := none
  cursor : Option (List Nat) := none
  cursorBytes : Option (List Nat) := none
  uri : Option (List Nat) := none
deriving DecidableEq

/-- `decodePrevious` result (fields 1 `at`, 2 `cursor`(+`cursorBytes`),
3 `uri` read as a plain string). -/
structure RPrevious where
  at_ : Option Nat := none
  cursor : Option (List Nat) := none
  cursorBytes : Option (List Nat) := none
  uri : Option (List Nat) := none
deriving DecidableEq

/-- `decodeReconnect` result (fields 1 `at`, 2 `streamUrl`, 3 `cursor`,
4 `reconnectAt`). -/
structure RReconnect where
  at_ : Option Nat := none
  streamUrl : Option (List Nat) := none
  cursor : Option (List Nat) := none
  cursorBytes : Option (List Nat) := none
  reconnectAt : Option Nat := none
deriving DecidableEq

/-- `decodeEntry` result (src/renderer.js lines 534-614). -/
structure REntry where
  segment : Option RViewSegment := none
  next : Option RNext := none
  backwardUri : Option (List Nat) := none
  previous : Option RPrevious := none
  snapshotUri : Option (List Nat) := none
  reconnect : Option RReconnect := none
  ping : Bool := false
  history : Bool := false
deriving DecidableEq

/-- `decodeViewSegment(reader, length)` loop (src/renderer.js lines 406-432). -/
def decodeViewSegmentLoopR (fuel : Nat) (buf : List Nat) (pos end_ : Nat)
    (msg : RViewSegment) : Option (RViewSegment × Nat) :=
  if pos ≥ end_ then some (msg, pos)
  else
    match fuel with
    | 0 => none
    | fuel + 1 =>
      match readerUint32 buf pos with
      | none => none
      | some (tag, p1) =>
        match tag / 8 with
        | 1 =>
          match readInt64FieldR buf p1 (tag % 8) with
          | none => none
          | some (v, p2) => decodeViewSegmentLoopR fuel buf p2 end_ { msg with from_ := v }
        | 2 =>
          match readInt64FieldR buf p1 (tag % 8) with
          | none => none
          | some (v, p2) => decodeViewSegmentLoopR fuel buf p2 end_ { msg with until_ := v }
        | 3 =>
          match readStringFlexibleR buf p1 (tag % 8) with
          | none => none
          | some (s, p2) => decodeViewSegmentLoopR fuel buf p2 end_ { msg with uri := s }
        | 4 =>
          match readInt64FieldR buf p1 (tag % 8) with
          | none => none
          | some (v, p2) =>
            decodeViewSegmentLoopR fuel buf p2 end_ { msg with reconnectAt := v }
        | _ =>
          match skipTypeR buf p1 (tag % 8) with
          | none => none
          | some p2 => decodeViewSegmentLoopR fuel buf p2 end_ msg

/-- `decodeNext(reader, length)` loop (src/renderer.js lines 434-463). -/
def decodeNextLoopR (fuel : Nat) (buf : List Nat) (pos end_ : Nat)
    (msg : RNext) : Option (RNext × Nat) :=
  if pos ≥ end_ then some (msg, pos)
  else
    match fuel with
    | 0 => none
    | fuel + 1 =>
      match readerUint32 buf pos with
      | none => none
      | some (tag, p1) =>
        match tag / 8 with
        | 1 =>
          match readInt64FieldR buf p1 (tag % 8) with
          | none => none
          | some (v, p2) => decodeNextLoopR fuel buf p2 end_ { msg with at_ := v }
        | 2 =>
          if tag % 8 = 2 then
            match readerBytes buf p1 with
            | none => none
            | some (bytes, p2) =>
              let cc := decodeOpaqueCursorR bytes
              decodeNextLoopR fuel buf p2 end_
                { msg with
                  cursor := some cc.1,
                  cursorBytes := match cc.2 with
                    | some raw => some raw
                    | none => msg.cursorBytes }
          else
            match skipTypeR buf p1 (tag % 8) with
            | none => none
            | some p2 => decodeNextLoopR fuel buf p2 end_ msg
        | 3 =>
          match readStringFlexibleR buf p1 (tag % 8) with
          | none => none
          | some (s, p2) => decodeNextLoopR fuel buf p2 end_ { msg with uri := s }
        | _ =>
          match skipTypeR buf p1 (tag % 8) with
          | none => none
          | some p2 => decodeNextLoopR fuel buf p2 end_ msg

/-- `decodePrevious(reader, length)` loop (src/renderer.js lines 465-498);
its field 3 is a plain `reader.string()`, not a flexible read. -/
def decodePreviousLoopR (fuel : Nat) (buf : List Nat) (pos end_ : Nat)
    (msg : RPrevious) : Option (RPrevious × Nat) :=
  if pos ≥ end_ then some (msg, pos)
  else
    match fuel with
    | 0 => none
    | fuel + 1 =>
      match readerUint32 buf pos with
      | none => none
      | some (tag, p1) =>
        match tag / 8 with
        | 1 =>
          match readInt64FieldR buf p1 (tag % 8) with
          | none => none
          | some (v, p2) => decodePreviousLoopR fuel buf p2 end_ { msg with at_ := v }
        | 2 =>
          if tag % 8 = 2 then
            match readerBytes buf p1 with
            | none => none
            | some (bytes, p2) =>
              let cc := decodeOpaqueCursorR bytes
              decodePreviousLoopR fuel buf p2 end_
                { msg with
                  cursor := some cc.1,
                  cursorBytes := match cc.2 with
                    | some raw => some raw
                    | none => msg.cursorBytes }
          else
            match skipTypeR buf p1 (tag % 8) with
            | none => none
            | some p2 => decodePreviousLoopR fuel buf p2 end_ msg
        | 3 =>
          if tag % 8 = 2 then
            match readerBytes buf p1 with
            | none => none
            | some (s, p2) => decodePreviousLoopR fuel buf p2 end_ { msg with uri := some s }
          else
            match skipTypeR buf p1 (tag % 8) with
            | none => none
            | some p2 => decodePreviousLoopR fuel buf p2 end_ msg
        | _ =>
          match skipTypeR buf p1 (tag % 8) with
          | none => none
          | some p2 => decodePreviousLoopR fuel buf p2 end_ msg

/-- `decodeReconnect(reader, length)` loop (src/renderer.js lines 500-532). -/
def decodeReconnectLoopR (fuel : Nat) (buf : List Nat) (pos end_ : Nat)
    (msg : RReconnect) : Option (RReconnect × Nat) :=
  if pos ≥ end_ then some (msg, pos)
  else
    match fuel with
    | 0 => none
    | fuel + 1 =>
      match readerUint32 buf pos with
      | none => none
      | some (tag, p1) =>
        match tag / 8 with
        | 1 =>
          match readInt64FieldR buf p1 (tag % 8) with
          | none => none
          | some (v, p2) => decodeReconnectLoopR fuel buf p2 end_ { msg with at_ := v }
        | 2 =>
          match readStringFlexibleR buf p1 (tag % 8) with
          | none => none
          | some (s, p2) => decodeReconnectLoopR fuel buf p2 end_ { msg with streamUrl := s }
        | 3 =>
          if tag % 8 = 2 then
            match readerBytes buf p1 with
            | none => none
            | some (bytes, p2) =>
              let cc := decodeOpaqueCursorR bytes
              decodeReconnectLoopR fuel buf p2 end_
                { msg with
                  cursor := some cc.1,
                  cursorBytes := match cc.2 with
                    | some raw => some raw
                    | none => msg.cursorBytes }
          else
            match skipTypeR buf p1 (tag % 8) with
            | none => none
            | some p2 => decodeReconnectLoopR fuel buf p2 end_ msg
        | 4 =>
          match readInt64FieldR buf p1 (tag % 8) with
          | none => none
          | some (v, p2) => decodeReconnectLoopR fuel buf p2 end_ { msg with reconnectAt := v }
        | _ =>
          match skipTypeR buf p1 (tag % 8) with
          | none => none
          | some p2 => decodeReconnectLoopR fuel buf p2 end_ msg

/-- `decodeNext(new Reader(bytes))` over a fresh reader; exceptions inside are
the caller's `catch`. -/
def decodeNextR (bytes : List Nat) : Option RNext :=
  match decodeNextLoopR (bytes.length + 1) bytes 0 bytes.length {} with
  | none => none
  | some (m, _) => some m

/-- `decodePrevious(new Reader(bytes))` over a fresh reader. -/
def decodePreviousR (bytes : List Nat) : Option RPrevious :=
  match decodePreviousLoopR (bytes.length + 1) bytes 0 bytes.length {} with
  | none => none
  | some (m, _) => some m

/-- `decodeReconnect(new Reader(reader.bytes()))` over a fresh reader. -/
def decodeReconnectR (bytes : List Nat) : Option RReconnect :=
  match decodeReconnectLoopR (bytes.length + 1) bytes 0 bytes.length {} with
  | none => none
  | some (m, _) => some m

/-- The `else` arm of entry field #2 (src/renderer.js lines 555-565): try a
nested `Next` on a fresh reader, keep the entry untouched if it throws, and
promote a URL-shaped `uri` to `backwardUri`. -/
def applyNextFallback (msg : REntry) (bytes : List Nat) : REntry :=
  match decodeNextR bytes with
  | some nxt =>
    { msg with
      next := some nxt,
      backwardUri := match nxt.uri with
        | some u => if isHttpUrl u then some u else msg.backwardUri
        | none => msg.backwardUri }
  | none => msg

/-- The `else` arm of entry field #3 (src/renderer.js lines 576-586). -/
def applyPrevFallback (msg : REntry) (bytes : List Nat) : REntry :=
  match decodePreviousR bytes with
  | some prv =>
    { msg with
      previous := some prv,
      snapshotUri := match prv.uri with
        | some u => if isHttpUrl u then some u else msg.snapshotUri
        | none => msg.snapshotUri }
  | none => msg

/-- `decodeEntry(reader, length)` loop (src/renderer.js lines 534-614).
Fields #2/#3 read their bytes eagerly (a throw there propagates) and then try
a URL string before falling back to a nested message on a fresh reader, whose
failures are swallowed.  Field #4 wraps even `reader.bytes()` in its `try`:
when the inner length varint runs off the buffer the reader is left at the end
of the buffer, and when only the payload slice overruns the reader is left
just past the varint — in both cases the loop continues from there. -/
def decodeEntryLoopR (fuel : Nat) (buf : List Nat) (pos end_ : Nat)
    (msg : REntry) : Option (REntry × Nat) :=
  if pos ≥ end_ then some (msg, pos)
  else
    match fuel with
    | 0 => none
    | fuel + 1 =>
      match readerUint32 buf pos with
      | none => none
      | some (tag, p1) =>
        match tag / 8 with
        | 1 =>
          if tag % 8 = 2 then
            match readerUint32 buf p1 with
            | none => none
            | some (len, p2) =>
              match decodeViewSegmentLoopR (buf.length + 1) buf p2 (p2 + len) {} with
              | none => none
              | some (m, p3) => decodeEntryLoopR fuel buf p3 end_ { msg with segment := some m }
          else
            match skipTypeR buf p1 (tag % 8) with
            | none => none
            | some p2 => decodeEntryLoopR fuel buf p2 end_ msg
        | 2 =>
          if tag % 8 = 2 then
            match readerBytes buf p1 with
            | none => none
            | some (bytes, p2) =>
              decodeEntryLoopR fuel buf p2 end_
                (match decodeStringFromBytes bytes with
                 | some s =>
                   if isHttpUrl s then { msg with backwardUri := some s }
                   else applyNextFallback msg bytes
                 | none => applyNextFallback msg bytes)
          else
            match skipTypeR buf p1 (tag % 8) with
            | none => none
            | some p2 => decodeEntryLoopR fuel buf p2 end_ msg
        | 3 =>
          if tag % 8 = 2 then
            match readerBytes buf p1 with
            | none => none
            | some (bytes, p2) =>
              decodeEntryLoopR fuel buf p2 end_
                (match decodeStringFromBytes bytes with
                 | some s =>
                   if isHttpUrl s then { msg with snapshotUri := some s }
                   else applyPrevFallback msg bytes
                 | none => applyPrevFallback msg bytes)
          else
            match skipTypeR buf p1 (tag % 8) with
            | none => none
            | some p2 => decodeEntryLoopR fuel buf p2 end_ msg
        | 4 =>
          if tag % 8 = 2 then
            match readerUint32 buf p1 with
            | none => decodeEntryLoopR fuel buf buf.length end_ msg
            | some (len, p2) =>
              if p2 + len > buf.length then decodeEntryLoopR fuel buf p2 end_ msg
              else
                match decodeReconnectR ((buf.drop p2).take len) with
                | some r =>
                  decodeEntryLoopR fuel buf (p2 + len) end_ { msg with reconnect := some r }
                | none => decodeEntryLoopR fuel buf (p2 + len) end_ msg
          else
            match skipTypeR buf p1 (tag % 8) with
            | none => none
            | some p2 => decodeEntryLoopR fuel buf p2 end_ msg
        | 5 => decodeEntryLoopR fuel buf p1 end_ { msg with ping := true }
        | 6 => decodeEntryLoopR fuel buf p1 end_ { msg with history := true }
        | _ =>
          match skipTypeR buf p1 (tag % 8) with
          | none => none
          | some p2 => decodeEntryLoopR fuel buf p2 end_ msg

/-- `decodeEntry` over a length-delimited range starting at `pos`. -/
def decodeEntryR (buf : List Nat) (pos len : Nat) : Option (REntry × Nat) :=
  decodeEntryLoopR (buf.length + 1) buf pos (pos + len) {}

/-- `decodeChunkedEntry` loop of the merged decoder (src/renderer.js lines
616-634): submessages under field #1 *and* under field #2 are both decoded
and appended to `entries`. -/
def decodeChunkedEntryLoopR (fuel : Nat) (buf : List Nat) (pos : Nat)
    (entries : List REntry) : Option (List REntry) :=
  if pos ≥ buf.length then some entries
  else
    match fuel with
    | 0 => none
    | fuel + 1 =>
      match readerUint32 buf pos with
      | none => none
      | some (tag, p1) =>
        match tag / 8 with
        | 1 =>
          match readerUint32 buf p1 with
          | none => none
          | some (len, p2) =>
            match decodeEntryR buf p2 len with
            | none => none
            | some (e, p3) => decodeChunkedEntryLoopR fuel buf p3 (entries ++ [e])
        | 2 =>
          match readerUint32 buf p1 with
          | none => none
          | some (len, p2) =>
            match decodeEntryR buf p2 len with
            | none => none
            | some (e, p3) => decodeChunkedEntryLoopR fuel buf p3 (entries ++ [e])
        | _ =>
          match skipTypeR buf p1 (tag % 8) with
          | none => none
          | some p2 => decodeChunkedEntryLoopR fuel buf p2 entries

/-- `decodeChunkedEntry(buf)` of the merged decoder, returning the `entries`
list. -/
def decodeChunkedEntryR (buf : List Nat) : Option (List REntry) :=
  decodeChunkedEntryLoopR (buf.length + 1) buf 0 []

def mkFieldBlock (field : Nat) (payload : List Nat) : List Nat :=
  (field * 8 + 2) :: encodeVarint payload.length ++ payload

theorem chunkedR_single (f : Nat) (hf : f = 1 ∨ f = 2) (block : List Nat)
    (hlen : block.length < 2 ^ 32) (e : REntry)
    (hdec : decodeEntryR (mkFieldBlock f block) (1 + (encodeVarint block.length).length)
        block.length = some (e, (mkFieldBlock f block).length)) :
    decodeChunkedEntryR (mkFieldBlock f block) = some [e] := by
  have htag2 : readerUint32 (mkFieldBlock f block) 1
      = some (block.length, 1 + (encodeVarint block.length).length) :=
    @readerUint32_at (mkFieldBlock f block) 1 block.length block (by simp [mkFieldBlock]) hlen
  have hblen : (mkFieldBlock f block).length
      = 1 + (encodeVarint block.length).length + block.length := by
    simp [mkFieldBlock]
    omega
  rw [decodeChunkedEntryR, decodeChunkedEntryLoopR]
  rw [if_neg (by simp [mkFieldBlock])]
  rcases hf with rfl | rfl
  · have htag : readerUint32 (mkFieldBlock 1 block) 0 = some (10, 1) := by
      have : mkFieldBlock 1 block = 10 :: (encodeVarint block.length ++ block) := by
        simp [mkFieldBlock]
      rw [this]
      simp [readerUint32, u32Aux_single (by norm_num : (10 : Nat) < 128)]
    rw [htag]
    simp only
    rw [htag2]
    simp only
    rw [hdec]
    simp only
    rw [decodeChunkedEntryLoopR.eq_def]
    rw [if_pos le_rfl]
    simp
  · have htag : readerUint32 (mkFieldBlock 2 block) 0 = some (18, 1) := by
      have : mkFieldBlock 2 block = 18 :: (encodeVarint block.length ++ block) := by
        simp [mkFieldBlock]
      rw [this]
      simp [readerUint32, u32Aux_single (by norm_num : (18 : Nat) < 128)]
    rw [htag]
    simp only
    rw [htag2]
    simp only
    rw [hdec]
    simp only
    rw [decodeChunkedEntryLoopR.eq_def]
    rw [if_pos le_rfl]
    simp

theorem chunkedN_field1 (block : List Nat) (hlen : block.length < 2 ^ 32) (e : NEntry)
    (hdec : decodeEntryN (mkFieldBlock 1 block) (1 + (encodeVarint block.length).length)
        block.length = some (e, (mkFieldBlock 1 block).length)) :
    decodeChunkedEntryN (mkFieldBlock 1 block) = some [e] := by
  have htag2 : readerUint32 (mkFieldBlock 1 block) 1
      = some (block.length, 1 + (encodeVarint block.length).length) :=
    @readerUint32_at (mkFieldBlock 1 block) 1 block.length block (by simp [mkFieldBlock]) hlen
  rw [decodeChunkedEntryN, decodeChunkedEntryLoopN]
  rw [if_neg (by simp [mkFieldBlock])]
  have htag : readerUint32 (mkFieldBlock 1 block) 0 = some (10, 1) := by
    have : mkFieldBlock 1 block = 10 :: (encodeVarint block.length ++ block) := by
      simp [mkFieldBlock]
    rw [this]
    simp [readerUint32, u32Aux_single (by norm_num : (10 : Nat) < 128)]
  rw [htag]
  simp only
  rw [htag2]
  simp only
  rw [hdec]
  simp only
  rw [decodeChunkedEntryLoopN.eq_def]
  rw [if_pos le_rfl]
  simp

theorem chunkedN_field2 (block : List Nat) (hlen : block.length < 2 ^ 32) :
    decodeChunkedEntryN (mkFieldBlock 2 block) = some [] := by
  have htag2 : readerUint32 (mkFieldBlock 2 block) 1
      = some (block.length, 1 + (encodeVarint block.length).length) :=
    @readerUint32_at (mkFieldBlock 2 block) 1 block.length block (by simp [mkFieldBlock]) hlen
  have hblen : (mkFieldBlock 2 block).length
      = 1 + (encodeVarint block.length).length + block.length := by
    simp [mkFieldBlock]
    omega
  rw [decodeChunkedEntryN, decodeChunkedEntryLoopN]
  rw [if_neg (by simp [mkFieldBlock])]
  have htag : readerUint32 (mkFieldBlock 2 block) 0 = some (18, 1) := by
    have : mkFieldBlock 2 block = 18 :: (encodeVarint block.length ++ block) := by
      simp [mkFieldBlock]
    rw [this]
    simp [readerUint32, u32Aux_single (by norm_num : (18 : Nat) < 128)]
  rw [htag]
  simp only
  have hskip : skipTypeN (mkFieldBlock 2 block) 1 2
      = some (1 + (encodeVarint block.length).length + block.length) := by
    rw [skipTypeN, htag2]
  rw [hskip]
  simp only
  rw [decodeChunkedEntryLoopN.eq_def]
  rw [if_pos (le_of_eq hblen)]

/-- C9 counterexample: the buffer `[0x12, 0x00]` is a `ChunkedEntry` envelope
holding one empty entry submessage under field #2.  The claim says both
decoders append field-#2 submessages to the entries list, but
`decodeChunkedEntry` of src/proto/nicolive.js skips field #2 and returns no
entries; only the merged renderer decoder appends it. -/
theorem claim_C9_counterexample :
    decodeChunkedEntryN [18, 0] = some [] ∧
    decodeChunkedEntryR [18, 0] = some [{}] := by
  decide

/-- C9 (amended): the merged renderer `decodeChunkedEntry` decodes and appends
entry submessages under field #1 and under field #2 alike, while the nicolive
`decodeChunkedEntry` appends only field-#1 submessages and skips field #2
without touching the entries list. -/
theorem claim_C9_chunked_entry_fields :
    (∀ f : Nat, f = 1 ∨ f = 2 → ∀ block : List Nat, block.length < 2 ^ 32 →
      ∀ e : REntry,
        decodeEntryR (mkFieldBlock f block) (1 + (encodeVarint block.length).length)
            block.length = some (e, (mkFieldBlock f block).length) →
        decodeChunkedEntryR (mkFieldBlock f block) = some [e]) ∧
    (∀ block : List Nat, block.length < 2 ^ 32 →
      ∀ e : NEntry,
        decodeEntryN (mkFieldBlock 1 block) (1 + (encodeVarint block.length).length)
            block.length = some (e, (mkFieldBlock 1 block).length) →
        decodeChunkedEntryN (mkFieldBlock 1 block) = some [e]) ∧
    (∀ block : List Nat, block.length < 2 ^ 32 →
      decodeChunkedEntryN (mkFieldBlock 2 block) = some []) :=
  ⟨fun f hf block hlen e hdec => chunkedR_single f hf block hlen e hdec,
    fun block hlen e hdec => chunkedN_field1 block hlen e hdec,
    fun block hlen => chunkedN_field2 block hlen⟩

/-- C9 amended-claim witness: an empty entry under field #2 is appended by the
renderer decoder, an empty entry under field #1 is appended by the nicolive
decoder, and a field-#2 block is skipped by the nicolive decoder. -/
theorem claim_C9_chunked_entry_fields_witness :
    (((2 : Nat) = 1 ∨ (2 : Nat) = 2) ∧ ([] : List Nat).length < 2 ^ 32 ∧
      decodeEntryR (mkFieldBlock 2 []) (1 + (encodeVarint ([] : List Nat).length).length)
          ([] : List Nat).length = some ({}, (mkFieldBlock 2 []).length) ∧
      decodeChunkedEntryR (mkFieldBlock 2 []) = some [{}]) ∧
    (([] : List Nat).length < 2 ^ 32 ∧
      decodeEntryN (mkFieldBlock 1 []) (1 + (encodeVarint ([] : List Nat).length).length)
          ([] : List Nat).length = some ({}, (mkFieldBlock 1 []).length) ∧
      decodeChunkedEntryN (mkFieldBlock 1 []) = some [{}]) ∧
    (([7] : List Nat).length < 2 ^ 32 ∧
      decodeChunkedEntryN (mkFieldBlock 2 [7]) = some []) :=
  ⟨⟨Or.inr rfl, by norm_num, by decide,
      claim_C9_chunked_entry_fields.1 2 (Or.inr rfl) [] (by norm_num) {} (by decide)⟩,
    ⟨by norm_num, by decide,
      claim_C9_chunked_entry_fields.2.1 [] (by norm_num) {} (by decide)⟩,
    ⟨by norm_num,
      claim_C9_chunked_entry_fields.2.2 [7] (by norm_num)⟩⟩
